import Mathlib

/-!
Verification development for the StreamHive video-catalog service.

The Go source is shallowly embedded: Go strings become `List Char`
(`GoString`), the relational catalog store becomes an association list,
and the fallible remote-storage calls are driven by explicit outcome
oracles.  Every definition is transcribed from the corresponding Go
function; comments cite the file it comes from.
-/

deriving instance DecidableEq for Except

namespace Catalog

/-- Go strings are modelled as lists of characters so that trimming,
splitting and joining can be reasoned about directly. -/
abbrev GoString := List Char

/-- Shorthand turning a Lean string literal into its character list. -/
def gs (s : String) : GoString := s.data

/-! ## Data model (internal/models/video.go) -/

/-- `VideoStatus` constants from internal/models/video.go. -/
inductive VideoStatus where
  | uploaded
  | processing
  | ready
  | failed
deriving DecidableEq, Repr

/-- `VideoMetadata` from internal/models/video.go.  The two float64
fields (duration, frame rate) are only ever copied verbatim by the
service, never computed with, so they are embedded as integers. -/
structure VideoMetadata where
  duration : Int
  fileSize : Int
  width : Int
  height : Int
  videoCodec : GoString
  videoBitrate : Int
  audioCodec : GoString
  audioBitrate : Int
  frameRate : Int
deriving DecidableEq, Repr

/-- The catalog record `Video` from internal/models/video.go (the
database-generated numeric key and timestamps are kept outside the
record; the deletion model keys records by a separate `Nat`). -/
structure Video where
  uploadID : GoString
  userID : GoString
  username : GoString
  title : GoString
  description : GoString
  tagsList : List GoString
  isPrivate : Bool
  category : GoString
  status : VideoStatus
  originalFilename : GoString
  rawVideoPath : GoString
  hlsMasterURL : GoString
  thumbnailURL : GoString
  duration : Int
  fileSize : Int
  width : Int
  height : Int
  videoCodec : GoString
  videoBitrate : Int
  audioCodec : GoString
  audioBitrate : Int
  frameRate : Int
deriving DecidableEq, Repr

/-- `UploadedEvent` from internal/models/video.go. -/
structure UploadedEvent where
  uploadID : GoString
  userID : GoString
  username : GoString
  originalName : GoString
  title : GoString
  description : GoString
  tags : List GoString
  isPrivate : Bool
  category : GoString
  rawVideoPath : GoString
deriving DecidableEq, Repr

/-- `TranscodedEvent` from internal/models/video.go (`HLS.MasterURL` is
inlined as `hlsMasterURL`; `Metadata` is the nilable pointer, hence
`Option`). -/
structure TranscodedEvent where
  uploadID : GoString
  userID : GoString
  title : GoString
  description : GoString
  tags : List GoString
  category : GoString
  isPrivate : Bool
  originalFilename : GoString
  rawVideoPath : GoString
  hlsMasterURL : GoString
  thumbnailURL : GoString
  metadata : Option VideoMetadata
deriving DecidableEq, Repr

/-! ## Catalog store

The reconciler only uses find-by-upload-id, create and save; the store
is an association list of records, looked up by `uploadID` (a unique
column in the schema).  Database calls are modelled as always
succeeding; the claims under verification are about the merge logic. -/

/-- `db.Where("upload_id = ?", id).First(...)`: first record with the
given upload id. -/
def findByUploadID (st : List Video) (uid : GoString) : Option Video :=
  st.find? (fun v => v.uploadID == uid)

/-- `db.Save(&v)`: replace the stored record carrying `v`'s upload id. -/
def saveVideo (st : List Video) (v : Video) : List Video :=
  st.map (fun w => if w.uploadID == v.uploadID then v else w)

/-- `db.Create(&v)`: append a fresh record. -/
def createVideo (st : List Video) (v : Video) : List Video :=
  st ++ [v]

/-! ## Lifecycle reconciler (internal/services/video_service.go) -/

/-- Helper `nonEmpty` from internal/services/video_service.go. -/
def nonEmptyS (v dflt : GoString) : GoString :=
  if v = [] then dflt else v

/-- The fixed placeholder title `"Untitled Video"`. -/
def untitled : GoString := gs "Untitled Video"

/-- The record built by `HandleUploadedEvent` when no row exists yet
(all fields absent from the Go struct literal are Go zero values). -/
def mkVideoFromUpload (e : UploadedEvent) : Video :=
  { uploadID := e.uploadID
    userID := e.userID
    username := e.username
    title := nonEmptyS e.title untitled
    description := e.description
    tagsList := e.tags
    isPrivate := e.isPrivate
    category := e.category
    status := VideoStatus.processing
    originalFilename := e.originalName
    rawVideoPath := e.rawVideoPath
    hlsMasterURL := []
    thumbnailURL := []
    duration := 0
    fileSize := 0
    width := 0
    height := 0
    videoCodec := []
    videoBitrate := 0
    audioCodec := []
    audioBitrate := 0
    frameRate := 0 }

/-- The placeholder record built by `HandleTranscodedEvent` when the
lookup misses (video_service.go lines 271-276). -/
def placeholderFromTranscoded (e : TranscodedEvent) : Video :=
  { uploadID := e.uploadID
    userID := e.userID
    username := []
    title := nonEmptyS e.title untitled
    description := []
    tagsList := []
    isPrivate := false
    category := []
    status := VideoStatus.processing
    originalFilename := []
    rawVideoPath := []
    hlsMasterURL := []
    thumbnailURL := []
    duration := 0
    fileSize := 0
    width := 0
    height := 0
    videoCodec := []
    videoBitrate := 0
    audioCodec := []
    audioBitrate := 0
    frameRate := 0 }

/-- The fill-if-empty patch applied by `HandleUploadedEvent` to an
existing row (video_service.go lines 197-231).  The Go code is a
sequence of `if` blocks that each touch one distinct field and OR the
change into `updated`; it is transcribed field by field, the returned
`Bool` being the final `updated` flag. -/
def patchFromUpload (x : Video) (e : UploadedEvent) : Video × Bool :=
  ({ x with
      username := if x.username = [] ∧ e.username ≠ [] then e.username else x.username
      title := if x.title = untitled ∧ e.title ≠ [] then e.title else x.title
      description :=
        if x.description = [] ∧ e.description ≠ [] then e.description else x.description
      tagsList := if x.tagsList = [] ∧ e.tags ≠ [] then e.tags else x.tagsList
      category := if x.category = [] ∧ e.category ≠ [] then e.category else x.category
      originalFilename :=
        if x.originalFilename = [] ∧ e.originalName ≠ [] then e.originalName
        else x.originalFilename
      rawVideoPath :=
        if x.rawVideoPath = [] ∧ e.rawVideoPath ≠ [] then e.rawVideoPath
        else x.rawVideoPath
      isPrivate := if x.isPrivate = false ∧ e.isPrivate = true then true else x.isPrivate },
   decide (x.username = [] ∧ e.username ≠ []) ||
   decide (x.title = untitled ∧ e.title ≠ []) ||
   decide (x.description = [] ∧ e.description ≠ []) ||
   decide (x.tagsList = [] ∧ e.tags ≠ []) ||
   decide (x.category = [] ∧ e.category ≠ []) ||
   decide (x.originalFilename = [] ∧ e.originalName ≠ []) ||
   decide (x.rawVideoPath = [] ∧ e.rawVideoPath ≠ []) ||
   decide (x.isPrivate = false ∧ e.isPrivate = true))

/-- `HandleUploadedEvent` (video_service.go lines 188-265).  The
returned flag records whether a persist (Save or Create) was issued;
the error is the `"invalid uploaded event"` rejection. -/
def HandleUploadedEvent (st : List Video) (e : UploadedEvent) :
    Except String (List Video × Bool) :=
  if e.uploadID = [] ∨ e.userID = [] then
    Except.error "invalid uploaded event"
  else
    match findByUploadID st e.uploadID with
    | some existing =>
        let pr := patchFromUpload existing e
        if pr.2 then Except.ok (saveVideo st pr.1, true)
        else Except.ok (st, false)
    | none => Except.ok (createVideo st (mkVideoFromUpload e), true)

/-- The merge `HandleTranscodedEvent` applies to the loaded (or freshly
created placeholder) record (video_service.go lines 283-334): fill-if-
empty for descriptive fields, escalate-only privacy, then the
unconditional manifest URL, status and (when the event carries one)
metadata writes. -/
def applyTranscoded (x : Video) (e : TranscodedEvent) : Video :=
  { x with
      title := if x.title = untitled ∧ e.title ≠ [] then e.title else x.title
      description :=
        if x.description = [] ∧ e.description ≠ [] then e.description else x.description
      tagsList := if x.tagsList = [] ∧ e.tags ≠ [] then e.tags else x.tagsList
      category := if x.category = [] ∧ e.category ≠ [] then e.category else x.category
      originalFilename :=
        if x.originalFilename = [] ∧ e.originalFilename ≠ [] then e.originalFilename
        else x.originalFilename
      rawVideoPath :=
        if x.rawVideoPath = [] ∧ e.rawVideoPath ≠ [] then e.rawVideoPath
        else x.rawVideoPath
      isPrivate := if x.isPrivate = false ∧ e.isPrivate = true then true else x.isPrivate
      hlsMasterURL := e.hlsMasterURL
      status := VideoStatus.ready
      thumbnailURL := if e.thumbnailURL ≠ [] then e.thumbnailURL else x.thumbnailURL
      duration := match e.metadata with | some m => m.duration | none => x.duration
      fileSize := match e.metadata with | some m => m.fileSize | none => x.fileSize
      width := match e.metadata with | some m => m.width | none => x.width
      height := match e.metadata with | some m => m.height | none => x.height
      videoCodec := match e.metadata with | some m => m.videoCodec | none => x.videoCodec
      videoBitrate :=
        match e.metadata with | some m => m.videoBitrate | none => x.videoBitrate
      audioCodec := match e.metadata with | some m => m.audioCodec | none => x.audioCodec
      audioBitrate :=
        match e.metadata with | some m => m.audioBitrate | none => x.audioBitrate
      frameRate := match e.metadata with | some m => m.frameRate | none => x.frameRate }

/-- `HandleTranscodedEvent` (video_service.go lines 268-347): look up by
upload id, create a placeholder on a miss, apply the merge, save. -/
def HandleTranscodedEvent (st : List Video) (e : TranscodedEvent) : List Video :=
  match findByUploadID st e.uploadID with
  | some v => saveVideo st (applyTranscoded v e)
  | none =>
      let p := placeholderFromTranscoded e
      saveVideo (createVideo st p) (applyTranscoded p e)

/-- Delivery order registration-then-finalization against an empty
store (the error branch cannot be reached for the valid events the
claims quantify over). -/
def runRegThenFin (ue : UploadedEvent) (te : TranscodedEvent) : List Video :=
  match HandleUploadedEvent [] ue with
  | Except.ok r => HandleTranscodedEvent r.1 te
  | Except.error _ => []

/-- Delivery order finalization-then-registration against an empty
store. -/
def runFinThenReg (ue : UploadedEvent) (te : TranscodedEvent) : List Video :=
  match HandleUploadedEvent (HandleTranscodedEvent [] te) ue with
  | Except.ok r => r.1
  | Except.error _ => HandleTranscodedEvent [] te

/-- The fields named by the commutativity claim: title, description,
tags, category, visibility, status, manifest URL and the media
metadata block. -/
@[ext] structure ObservedState where
  title : GoString
  description : GoString
  tagsList : List GoString
  category : GoString
  isPrivate : Bool
  status : VideoStatus
  hlsMasterURL : GoString
  duration : Int
  fileSize : Int
  width : Int
  height : Int
  videoCodec : GoString
  videoBitrate : Int
  audioCodec : GoString
  audioBitrate : Int
  frameRate : Int
deriving DecidableEq, Repr

/-- Projection of a record onto the claim-observed fields. -/
def obsState (v : Video) : ObservedState :=
  { title := v.title
    description := v.description
    tagsList := v.tagsList
    category := v.category
    isPrivate := v.isPrivate
    status := v.status
    hlsMasterURL := v.hlsMasterURL
    duration := v.duration
    fileSize := v.fileSize
    width := v.width
    height := v.height
    videoCodec := v.videoCodec
    videoBitrate := v.videoBitrate
    audioCodec := v.audioCodec
    audioBitrate := v.audioBitrate
    frameRate := v.frameRate }

/-! ## PostgreSQL array codec (internal/models/video.go) -/

/-- `strings.Split(s, sep)` for a one-character separator, on the
character-list model (Go yields one part more than the number of
separators, so the empty string splits to one empty part). -/
def goSplit (sep : Char) : GoString → List GoString
  | [] => [[]]
  | c :: rest =>
      if c = sep then [] :: goSplit sep rest
      else
        match goSplit sep rest with
        | [] => [[c]]
        | p :: ps => (c :: p) :: ps

/-- `strings.Trim(s, cutset)`: remove every leading and trailing
character satisfying `cut`. -/
def trimCutset (cut : Char → Bool) (l : GoString) : GoString :=
  ((l.dropWhile cut).reverse.dropWhile cut).reverse

/-- Membership in the `"{}"` cutset. -/
def isBrace (c : Char) : Bool := c = '\x7b' || c = '\x7d'

/-- The two-character string `"{}"`. -/
def bracePair : GoString := ['\x7b', '\x7d']

/-- `strings.ReplaceAll(s, quote-quote, quote)`: left-to-right
non-overlapping replacement of doubled double-quotes by single ones. -/
def replQQ : GoString → GoString
  | [] => []
  | [c] => [c]
  | c :: d :: rest =>
      if c = '"' ∧ d = '"' then '"' :: replQQ rest
      else c :: replQQ (d :: rest)

/-- `strings.Join(elems, sep)` on the character-list model. -/
def goJoin (sep : GoString) : List GoString → GoString
  | [] => []
  | [a] => a
  | a :: b :: rest => a ++ sep ++ goJoin sep (b :: rest)

/-- `convertSliceToPostgresArray` (video.go lines 307-320): quote each
item with internal double-quotes doubled, join with commas, wrap in
braces; the empty slice encodes to the two-character brace pair. -/
def convertSliceToPostgresArray (slice : List GoString) : GoString :=
  if slice = [] then bracePair
  else
    let escaped := slice.map (fun item =>
      '"' :: (item.flatMap (fun c => if c = '"' then ['"', '"'] else [c])) ++ ['"'])
    '\x7b' :: (goJoin [','] escaped) ++ ['\x7d']

/-- `convertPostgresArrayToSlice` (video.go lines 323-345): strip the
brace cutset, split on commas, strip the quote cutset from each part
and undouble its quotes. -/
def convertPostgresArrayToSlice (pg : GoString) : List GoString :=
  if pg = [] ∨ pg = bracePair then []
  else
    let trimmed := trimCutset isBrace pg
    if trimmed = [] then []
    else
      (goSplit ',' trimmed).map (fun part =>
        replQQ (trimCutset (fun c => c = '"') part))

/-- The quoting shape `convertSliceToPostgresArray` gives each item
whose text contains no double-quote (used to state the round-trip). -/
def quoteWrap (t : GoString) : GoString := '"' :: t ++ ['"']

/-! ## Deletion plan (internal/services/video_delete_service.go) -/

/-- The literal `"hls"`. -/
def hlsStr : GoString := gs "hls"

/-- The scan inside `extractHLSPrefix` (video_delete_service.go lines
155-161): the first path segment equal to `"hls"` that is followed by
at least two further segments, together with those two segments
(`i+2 < len(parts)` in the Go loop). -/
def findHLSMarker : List GoString → Option (GoString × GoString)
  | p :: a :: b :: rest =>
      if p = hlsStr then some (a, b) else findHLSMarker (a :: b :: rest)
  | _ => none

/-- One step of Go `path/filepath.Clean` on a component: drop empty and
`"."` components, let `".."` cancel the previous real component (or
survive at the head of a relative path).  The accumulator holds the
kept components in reverse. -/
def cleanStep (stack : List GoString) (c : GoString) : List GoString :=
  if c = [] ∨ c = gs "." then stack
  else if c = gs ".." then
    match stack with
    | [] => [gs ".."]
    | top :: rest => if top = gs ".." then c :: top :: rest else rest
  else c :: stack

/-- Go `path/filepath.Clean` restricted to relative (non-rooted) paths,
the only inputs `filepathJoin` below ever produces here (its first
element is always the non-empty literal `"hls"`). -/
def cleanPath (s : GoString) : GoString :=
  let comps := ((goSplit '/' s).foldl cleanStep []).reverse
  if comps = [] then gs "." else goJoin (gs "/") comps

/-- Go `path/filepath.Join`: skip leading empty elements, join the rest
with slashes and `Clean` the result. -/
def filepathJoin : List GoString → GoString
  | [] => []
  | e :: rest =>
      if e = [] then filepathJoin rest
      else cleanPath (goJoin (gs "/") (e :: rest))

/-- `extractHLSPrefix` (video_delete_service.go lines 146-165; renamed
because of a lexical restriction on the suffix): empty URL gives the
empty string; otherwise the joined marker segments, falling back to
`"hls/{userID}/{uploadID}"`. -/
def extractHLSPfx (masterURL userID uploadID : GoString) : GoString :=
  if masterURL = [] then []
  else
    match findHLSMarker (goSplit '/' masterURL) with
    | some (a, b) => filepathJoin [hlsStr, a, b]
    | none => hlsStr ++ '/' :: userID ++ '/' :: uploadID

/-- The deterministic thumbnail object path
`"thumbnails/{userID}/{uploadID}.jpg"` (video_delete_service.go line 76). -/
def thumbnailPath (v : Video) : GoString :=
  gs "thumbnails/" ++ v.userID ++ '/' :: v.uploadID ++ gs ".jpg"

/-- The catch-all future-proofing `"videos/{userID}/{uploadID}"`
(video_delete_service.go line 81). -/
def catchAllPfx (v : Video) : GoString :=
  gs "videos/" ++ v.userID ++ '/' :: v.uploadID

/-- The storage-side deletion plan built by `DeleteVideoCompletely`
(video_delete_service.go lines 56-82): `paths` is `pathsToDelete`,
`prefixes` is `prefixesToDelete`, in construction order. -/
structure DeletePlan where
  paths : List GoString
  prefixes : List GoString
deriving DecidableEq, Repr

/-- Plan derivation exactly as in `DeleteVideoCompletely`: the raw path
when non-empty, the HLS folder only when the manifest URL is non-empty
and the extraction is non-empty, the thumbnail always, the catch-all
always. -/
def buildDeletePlan (v : Video) : DeletePlan :=
  let paths1 := if v.rawVideoPath ≠ [] then [v.rawVideoPath] else []
  let pfx1 :=
    if v.hlsMasterURL ≠ [] then
      let h := extractHLSPfx v.hlsMasterURL v.userID v.uploadID
      if h ≠ [] then [h] else []
    else []
  { paths := paths1 ++ [thumbnailPath v]
    prefixes := pfx1 ++ [catchAllPfx v] }

/-- The rendition-folder prefix exactly as the specification words it:
the `"hls"` marker joined with the next two path segments, with the
deterministic fallback whenever no such marker with two following
segments exists. -/
def claimedRenditionPfx (v : Video) : GoString :=
  match findHLSMarker (goSplit '/' v.hlsMasterURL) with
  | some (a, b) => filepathJoin [hlsStr, a, b]
  | none => hlsStr ++ '/' :: v.userID ++ '/' :: v.uploadID

/-- The deletion plan as the claim describes it: raw path if present,
thumbnail, rendition prefix (with fallback), catch-all prefix. -/
def claimedPlan (v : Video) : DeletePlan :=
  { paths := (if v.rawVideoPath ≠ [] then [v.rawVideoPath] else []) ++ [thumbnailPath v]
    prefixes := [claimedRenditionPfx v, catchAllPfx v] }

/-! ## Deletion orchestrator (internal/services/video_delete_service.go)

Remote-storage and database outcomes are supplied by a `DeleteEnv` of
oracles; the orchestrator also emits the chronological trace of the
calls it issues, so ordering and coverage can be stated. -/

/-- One call issued by the orchestrator. -/
inductive DelOp where
  | checkExists (path : GoString)
  | deleteBlob (path : GoString)
  | deletePfx (p : GoString)
  | dbDelete (id : Nat)
deriving DecidableEq, Repr

/-- Outcomes of the collaborators: blob-existence checks, single-blob
deletions, and the two database operations. -/
structure DeleteEnv where
  existsRes : GoString → Except Unit Bool
  deleteRes : GoString → Except Unit Unit
  dbGetOk : Bool
  dbDeleteOk : Bool

/-- The error surface of `DeleteVideoCompletely` (its Go `error`
result): `ok` is the nil error. -/
inductive DeleteResult where
  | ok
  | notFound
  | getFailed
  | dbDeleteFailed
deriving DecidableEq, Repr

/-- `deleteFileIfExists` (video_delete_service.go lines 126-143):
existence check first, absent blobs are skipped, present ones deleted;
returns the Go error and the calls made. -/
def deleteFileIfExists (env : DeleteEnv) (path : GoString) :
    Except Unit Unit × List DelOp :=
  match env.existsRes path with
  | Except.error _ => (Except.error (), [DelOp.checkExists path])
  | Except.ok false => (Except.ok (), [DelOp.checkExists path])
  | Except.ok true =>
      match env.deleteRes path with
      | Except.error _ => (Except.error (), [DelOp.checkExists path, DelOp.deleteBlob path])
      | Except.ok _ => (Except.ok (), [DelOp.checkExists path, DelOp.deleteBlob path])

/-- The deletion-side catalog: records keyed by the internal numeric
key (`db.First(&video, videoID)`). -/
def lookupCat (cat : List (Nat × Video)) (id : Nat) : Option Video :=
  (cat.find? (fun p => p.1 == id)).map Prod.snd

/-- `db.Unscoped().Delete(&video)`: hard-remove the row with the key. -/
def removeCat (cat : List (Nat × Video)) (id : Nat) : List (Nat × Video) :=
  cat.filter (fun p => p.1 ≠ id)

/-- `DeleteVideoCompletely` (video_delete_service.go lines 39-123):
load the record, build the plan, attempt every individual object and
every prefix ignoring their failures (they are only logged), then
hard-delete the row.  Returns the Go error surface, the catalog after
the call, and the chronological call trace. -/
def DeleteVideoCompletely (env : DeleteEnv) (cat : List (Nat × Video)) (id : Nat) :
    DeleteResult × List (Nat × Video) × List DelOp :=
  match lookupCat cat id with
  | none => (DeleteResult.notFound, cat, [])
  | some v =>
      if env.dbGetOk = false then (DeleteResult.getFailed, cat, [])
      else
        let plan := buildDeletePlan v
        let fileOps := plan.paths.flatMap (fun p => (deleteFileIfExists env p).2)
        let pfxOps := plan.prefixes.map DelOp.deletePfx
        let ops := fileOps ++ pfxOps
        if env.dbDeleteOk then
          (DeleteResult.ok, removeCat cat id, ops ++ [DelOp.dbDelete id])
        else
          (DeleteResult.dbDeleteFailed, cat, ops ++ [DelOp.dbDelete id])

/-! ## Storage gateway resilience envelope (internal/services/azure_client.go) -/

/-- The two remote-call kinds of the gateway. -/
inductive CallKind where
  | deleteOne (path : GoString)
  | listPage (pfx : GoString) (page : Nat)
deriving DecidableEq, Repr

/-- One attempt against the remote store: which call, the per-attempt
context timeout (if any), the backoff slept immediately before it, and
whether it was routed through the shared circuit breaker. -/
structure AttemptRec where
  kind : CallKind
  timeoutMs : Option Nat
  sleptBeforeMs : Nat
  viaBreaker : Bool
deriving DecidableEq, Repr

/-- The configurable knobs of `DeleteBlob` with their defaults
(azure_client.go lines 86-93): 3000 ms per attempt, 2 retries. -/
structure RetryConfig where
  attemptTimeoutMs : Nat := 3000
  retries : Nat := 2
deriving DecidableEq, Repr

/-- The backoff update of azure_client.go line 104: double while below
1500 ms (so the sleeps are 200, 400, 800, 1600, 1600, ...). -/
def nextBackoff (b : Nat) : Nat := if b < 1500 then b * 2 else b

/-- The retry loop of `DeleteBlob` (azure_client.go lines 94-106):
`n` attempts remain, the `i`-th breaker-wrapped attempt succeeds iff
`oracle i`, `backoff` is the current backoff and `pend` the sleep taken
just before this attempt.  Returns overall success and the attempts. -/
def runRetry (toMs : Nat) (oracle : Nat → Bool) (kind : CallKind) :
    Nat → Nat → Nat → Nat → Bool × List AttemptRec
  | 0, _, _, _ => (false, [])
  | Nat.succ n, i, backoff, pend =>
      let rec0 : AttemptRec :=
        { kind := kind, timeoutMs := some toMs, sleptBeforeMs := pend, viaBreaker := true }
      if oracle i then (true, [rec0])
      else
        match n with
        | 0 => (false, [rec0])
        | Nat.succ m =>
            let r := runRetry toMs oracle kind (Nat.succ m) (i + 1) (nextBackoff backoff) backoff
            (r.1, rec0 :: r.2)

/-- `DeleteBlob` (azure_client.go lines 85-107): up to `retries + 1`
attempts, each under a fresh per-attempt timeout and the breaker, with
the 200 ms exponential backoff between attempts. -/
def DeleteBlob (cfg : RetryConfig) (oracle : Nat → Bool) (path : GoString) :
    Bool × List AttemptRec :=
  runRetry cfg.attemptTimeoutMs oracle (CallKind.deleteOne path) (cfg.retries + 1) 0 200 0

/-- The page retrieval inside `DeleteBlobsWithPrefix` (azure_client.go
line 114): a single breaker-wrapped `pager.NextPage(ctx)` under the
caller's context — no `WithTimeout`, no retry, no backoff. -/
def listPageFetch (pageOracle : Nat → Bool) (pfx : GoString) (page : Nat) :
    Bool × AttemptRec :=
  (pageOracle page,
   { kind := CallKind.listPage pfx page, timeoutMs := none, sleptBeforeMs := 0,
     viaBreaker := true })

/-- The inner blob loop of `DeleteBlobsWithPrefix` (azure_client.go
lines 117-121): delete each listed blob via `DeleteBlob`, aborting on
the first failed blob. -/
def deletePageBlobs (cfg : RetryConfig) (blobOracle : GoString → Nat → Bool) :
    List GoString → Bool × List AttemptRec
  | [] => (true, [])
  | nm :: rest =>
      let r := DeleteBlob cfg (blobOracle nm) nm
      if r.1 then
        let r2 := deletePageBlobs cfg blobOracle rest
        (r2.1, r.2 ++ r2.2)
      else (false, r.2)

/-- `DeleteBlobsWithPrefix` (azure_client.go lines 110-124; renamed
because of a lexical restriction on the suffix): page through the
listing, failing on the first failed page fetch or blob deletion.
`pages` holds the blob names of each page, numbered from `firstPage`. -/
def DeleteBlobsWithPfx (cfg : RetryConfig) (pageOracle : Nat → Bool)
    (blobOracle : GoString → Nat → Bool) (pfx : GoString) :
    Nat → List (List GoString) → Bool × List AttemptRec
  | _, [] => (true, [])
  | firstPage, names :: more =>
      let pf := listPageFetch pageOracle pfx firstPage
      if pf.1 then
        let rb := deletePageBlobs cfg blobOracle names
        if rb.1 then
          let rest := DeleteBlobsWithPfx cfg pageOracle blobOracle pfx (firstPage + 1) more
          (rest.1, pf.2 :: rb.2 ++ rest.2)
        else (false, pf.2 :: rb.2)
      else (false, [pf.2])

/-- The backoff the code sleeps before attempt `j` (zero for the first
attempt, then 200 ms doubling, capped at 1600 ms). -/
def expSleep : Nat → Nat
  | 0 => 0
  | Nat.succ j => min (200 * 2 ^ j) 1600

/-- The backoff sequence actually generated by the loop: `k` successive
sleeps starting from backoff value `b`. -/
def geomFrom (b : Nat) : Nat → List Nat
  | 0 => []
  | Nat.succ k => b :: geomFrom (nextBackoff b) k

/-! ## Concrete sample data for witnesses and counterexamples -/

/-- A representative valid registration event. -/
def evU1 : UploadedEvent :=
  { uploadID := gs "u1", userID := gs "user123", username := gs "alice",
    originalName := gs "clip.mp4", title := gs "My Clip",
    description := gs "a description", tags := [gs "a", gs "b"],
    isPrivate := false, category := gs "music", rawVideoPath := gs "raw/user123/u1" }

/-- A finalization event for the same asset carrying only the
finalization-authoritative data. -/
def evT1 : TranscodedEvent :=
  { uploadID := gs "u1", userID := gs "user123", title := [],
    description := [], tags := [], category := [], isPrivate := false,
    originalFilename := [], rawVideoPath := [],
    hlsMasterURL := gs "https://x/hls/user123/u1/master.m3u8",
    thumbnailURL := gs "https://x/thumbnails/user123/u1.jpg",
    metadata := some
      { duration := 12, fileSize := 100, width := 640, height := 360,
        videoCodec := gs "h264", videoBitrate := 1000,
        audioCodec := gs "aac", audioBitrate := 128, frameRate := 30 } }

/-- The metadata block of `evT1`. -/
def md1 : VideoMetadata :=
  { duration := 12, fileSize := 100, width := 640, height := 360,
    videoCodec := gs "h264", videoBitrate := 1000,
    audioCodec := gs "aac", audioBitrate := 128, frameRate := 30 }

/-- A registration event with title `"A"` (for the commutativity
counterexample). -/
def evU2 : UploadedEvent :=
  { uploadID := gs "u2", userID := gs "o", username := [],
    originalName := [], title := gs "A", description := [],
    tags := [], isPrivate := false, category := [], rawVideoPath := [] }

/-- A finalization event for the same asset carrying the different
non-empty title `"B"`. -/
def evT2 : TranscodedEvent :=
  { uploadID := gs "u2", userID := gs "o", title := gs "B",
    description := [], tags := [], category := [], isPrivate := false,
    originalFilename := [], rawVideoPath := [], hlsMasterURL := gs "m",
    thumbnailURL := [], metadata := none }

/-- A registration event whose title is exactly the placeholder (for
the idempotence counterexample). -/
def evU3 : UploadedEvent :=
  { uploadID := gs "u3", userID := gs "o", username := [],
    originalName := [], title := gs "Untitled Video", description := [],
    tags := [], isPrivate := false, category := [], rawVideoPath := [] }

/-- A stored record that is already private. -/
def privVid : Video :=
  { mkVideoFromUpload evU1 with isPrivate := true }

/-- A registration replay carrying a public flag against `privVid`. -/
def evU1pub : UploadedEvent := { evU1 with title := gs "T2" }

/-- An empty-identifier finalization event. -/
def evT0 : TranscodedEvent :=
  { uploadID := [], userID := [], title := [], description := [],
    tags := [], category := [], isPrivate := false, originalFilename := [],
    rawVideoPath := [], hlsMasterURL := [], thumbnailURL := [], metadata := none }

/-- An empty-identifier registration event. -/
def evU0 : UploadedEvent :=
  { uploadID := [], userID := gs "o", username := [], originalName := [],
    title := [], description := [], tags := [], isPrivate := false,
    category := [], rawVideoPath := [] }

/-- A fully populated record for the deletion claims. -/
def vid1 : Video :=
  applyTranscoded (mkVideoFromUpload evU1) evT1

/-- A record with an empty manifest URL (for the plan counterexample). -/
def vid2 : Video :=
  mkVideoFromUpload evU2

/-- Storage environment in which every call succeeds. -/
def envOk : DeleteEnv :=
  { existsRes := fun _ => Except.ok true, deleteRes := fun _ => Except.ok (),
    dbGetOk := true, dbDeleteOk := true }

/-- Storage environment in which only the thumbnail deletion fails. -/
def envThumbFail : DeleteEnv :=
  { existsRes := fun _ => Except.ok true,
    deleteRes := fun p => if p = thumbnailPath vid1 then Except.error () else Except.ok (),
    dbGetOk := true, dbDeleteOk := true }

/-- Environment in which the final row deletion fails. -/
def envDbFail : DeleteEnv :=
  { envOk with dbDeleteOk := false }

/-- The one-record deletion catalog. -/
def cat1 : List (Nat × Video) := [(1, vid1)]

/-- The outcome oracle that fails the first attempt and succeeds from
the second on. -/
def flakyOnce : Nat → Bool := fun i => i != 0

/-! ## Handler characterizations -/

/-- Unfolding equation: registration handler on an existing row. -/
theorem HandleUploadedEvent_found (st : List Video) (e : UploadedEvent) (existing : Video)
    (hvalid : ¬(e.uploadID = [] ∨ e.userID = []))
    (hex : findByUploadID st e.uploadID = some existing) :
    HandleUploadedEvent st e =
      (if (patchFromUpload existing e).2 then
        Except.ok (saveVideo st (patchFromUpload existing e).1, true)
      else Except.ok (st, false)) := by
  rw [HandleUploadedEvent, if_neg hvalid, hex]

/-- Unfolding equation: registration handler on a fresh row. -/
theorem HandleUploadedEvent_missing (st : List Video) (e : UploadedEvent)
    (hvalid : ¬(e.uploadID = [] ∨ e.userID = []))
    (hex : findByUploadID st e.uploadID = none) :
    HandleUploadedEvent st e = Except.ok (createVideo st (mkVideoFromUpload e), true) := by
  rw [HandleUploadedEvent, if_neg hvalid, hex]

/-- Unfolding equation: finalization handler on an existing row. -/
theorem HandleTranscodedEvent_found (st : List Video) (e : TranscodedEvent) (v : Video)
    (hex : findByUploadID st e.uploadID = some v) :
    HandleTranscodedEvent st e = saveVideo st (applyTranscoded v e) := by
  rw [HandleTranscodedEvent, hex]

/-- Unfolding equation: finalization handler on a miss. -/
theorem HandleTranscodedEvent_missing (st : List Video) (e : TranscodedEvent)
    (hex : findByUploadID st e.uploadID = none) :
    HandleTranscodedEvent st e =
      saveVideo (createVideo st (placeholderFromTranscoded e))
        (applyTranscoded (placeholderFromTranscoded e) e) := by
  rw [HandleTranscodedEvent, hex]

/-- A found record carries the looked-up upload id. -/
theorem findByUploadID_eq_some {st : List Video} {k : GoString} {v : Video}
    (h : findByUploadID st k = some v) : v.uploadID = k := by
  unfold findByUploadID at h
  have hp := List.find?_some h
  simpa using hp

/-- Saving only rewrites the records carrying the saved upload id, and
never changes any record's upload id, so lookups commute with it. -/
theorem findByUploadID_save (st : List Video) (w : Video) (k : GoString) :
    findByUploadID (saveVideo st w) k =
      (findByUploadID st k).map (fun v => if v.uploadID == w.uploadID then w else v) := by
  induction st with
  | nil => rfl
  | cons x xs ih =>
      have hsv : saveVideo (x :: xs) w
          = (if x.uploadID == w.uploadID then w else x) :: saveVideo xs w := rfl
      have hhead : (if x.uploadID == w.uploadID then w else x).uploadID = x.uploadID := by
        by_cases hxw : x.uploadID = w.uploadID
        · rw [if_pos (by simp [hxw])]
          exact hxw.symm
        · rw [if_neg (by simp [hxw])]
      by_cases hxk : x.uploadID = k
      · have l1 : findByUploadID (saveVideo (x :: xs) w) k
            = some (if x.uploadID == w.uploadID then w else x) := by
          rw [hsv]
          unfold findByUploadID
          apply List.find?_cons_of_pos
          rw [hhead]
          simp [hxk]
        have l2 : findByUploadID (x :: xs) k = some x := by
          unfold findByUploadID
          apply List.find?_cons_of_pos
          simp [hxk]
        rw [l1, l2]
        simp
      · have l1 : findByUploadID (saveVideo (x :: xs) w) k
            = findByUploadID (saveVideo xs w) k := by
          rw [hsv]
          unfold findByUploadID
          rw [List.find?_cons_of_neg]
          rw [hhead]
          simp [hxk]
        have l2 : findByUploadID (x :: xs) k = findByUploadID xs k := by
          unfold findByUploadID
          rw [List.find?_cons_of_neg]
          simp [hxk]
        rw [l1, l2, ih]

/-- Lookup skips an appended tail while the front already answers. -/
theorem findByUploadID_append_some (st l : List Video) (k : GoString) (v : Video)
    (h : findByUploadID st k = some v) :
    findByUploadID (st ++ l) k = some v := by
  induction st with
  | nil => simp [findByUploadID] at h
  | cons x xs ih =>
      by_cases hxk : x.uploadID = k
      · have : findByUploadID (x :: xs) k = some x := by
          unfold findByUploadID
          apply List.find?_cons_of_pos
          simp [hxk]
        rw [this] at h
        obtain rfl := Option.some.inj h
        unfold findByUploadID
        apply List.find?_cons_of_pos
        simp [hxk]
      · have h2 : findByUploadID xs k = some v := by
          unfold findByUploadID at h ⊢
          rwa [List.find?_cons_of_neg _ (by simp [hxk])] at h
        have := ih h2
        unfold findByUploadID at this ⊢
        rw [List.cons_append, List.find?_cons_of_neg _ (by simp [hxk])]
        exact this

/-- Lookup falls through to an appended tail when the front misses. -/
theorem findByUploadID_append_none (st l : List Video) (k : GoString)
    (h : findByUploadID st k = none) :
    findByUploadID (st ++ l) k = findByUploadID l k := by
  induction st with
  | nil => rfl
  | cons x xs ih =>
      by_cases hxk : x.uploadID = k
      · have : findByUploadID (x :: xs) k = some x := by
          unfold findByUploadID
          apply List.find?_cons_of_pos
          simp [hxk]
        rw [this] at h
        cases h
      · have h2 : findByUploadID xs k = none := by
          unfold findByUploadID at h ⊢
          rwa [List.find?_cons_of_neg _ (by simp [hxk])] at h
        have := ih h2
        unfold findByUploadID at this ⊢
        rw [List.cons_append, List.find?_cons_of_neg _ (by simp [hxk])]
        exact this

/-- `applyTranscoded` never touches the upload id. -/
theorem applyTranscoded_uploadID (x : Video) (e : TranscodedEvent) :
    (applyTranscoded x e).uploadID = x.uploadID := rfl

/-- `patchFromUpload` never touches the upload id. -/
theorem patchFromUpload_uploadID (x : Video) (e : UploadedEvent) :
    ((patchFromUpload x e).1).uploadID = x.uploadID := rfl

/-- `patchFromUpload` never clears a set privacy flag. -/
theorem patchFromUpload_isPrivate (x : Video) (e : UploadedEvent)
    (h : x.isPrivate = true) : ((patchFromUpload x e).1).isPrivate = true := by
  simp [patchFromUpload, h]

/-- `applyTranscoded` never clears a set privacy flag. -/
theorem applyTranscoded_isPrivate (x : Video) (e : TranscodedEvent)
    (h : x.isPrivate = true) : (applyTranscoded x e).isPrivate = true := by
  simp [applyTranscoded, h]

/-- Claim C3: for every finalization event carrying a metadata block
and applied to an existing record, the handler stores a record whose
manifest URL and entire numeric media-metadata block come verbatim
from the event, regardless of the record's prior values, with the
status advanced to ready. -/
theorem claimC3 (st : List Video) (e : TranscodedEvent) (v : Video) (m : VideoMetadata)
    (hfind : findByUploadID st e.uploadID = some v) (hm : e.metadata = some m) :
    ∃ v1, findByUploadID (HandleTranscodedEvent st e) e.uploadID = some v1 ∧
      v1.hlsMasterURL = e.hlsMasterURL ∧
      v1.status = VideoStatus.ready ∧
      v1.duration = m.duration ∧ v1.fileSize = m.fileSize ∧ v1.width = m.width ∧
      v1.height = m.height ∧ v1.videoCodec = m.videoCodec ∧
      v1.videoBitrate = m.videoBitrate ∧ v1.audioCodec = m.audioCodec ∧
      v1.audioBitrate = m.audioBitrate ∧ v1.frameRate = m.frameRate := by
  refine ⟨applyTranscoded v e, ?_, ?_, ?_, ?_, ?_, ?_, ?_, ?_, ?_, ?_, ?_, ?_⟩
  · rw [HandleTranscodedEvent_found st e v hfind, findByUploadID_save, hfind]
    simp [applyTranscoded_uploadID]
  all_goals simp [applyTranscoded, hm]

/-- Claim C3 witness: a concrete finalization event against a concrete
store. -/
theorem claimC3_witness :
    ∃ v1, findByUploadID
        (HandleTranscodedEvent [mkVideoFromUpload evU1] evT1) (evT1.uploadID) = some v1 ∧
      v1.hlsMasterURL = evT1.hlsMasterURL ∧
      v1.status = VideoStatus.ready ∧
      v1.duration = md1.duration ∧ v1.fileSize = md1.fileSize ∧ v1.width = md1.width ∧
      v1.height = md1.height ∧ v1.videoCodec = md1.videoCodec ∧
      v1.videoBitrate = md1.videoBitrate ∧ v1.audioCodec = md1.audioCodec ∧
      v1.audioBitrate = md1.audioBitrate ∧ v1.frameRate = md1.frameRate :=
  claimC3 [mkVideoFromUpload evU1] evT1 (mkVideoFromUpload evU1) md1 (by decide) (by decide)

/-- Claim C8: once a stored record is private, neither a registration
nor a finalization event (in particular one carrying a public flag)
ever flips it back: merges only escalate the flag. -/
theorem claimC8 (st : List Video) (k : GoString) (v : Video)
    (hfind : findByUploadID st k = some v) (hpriv : v.isPrivate = true) :
    (∀ (e : UploadedEvent) (st2 : List Video) (p : Bool),
        HandleUploadedEvent st e = Except.ok (st2, p) →
        ∀ v2, findByUploadID st2 k = some v2 → v2.isPrivate = true) ∧
    (∀ (e : TranscodedEvent) (v2 : Video),
        findByUploadID (HandleTranscodedEvent st e) k = some v2 →
        v2.isPrivate = true) := by
  have hvk := findByUploadID_eq_some hfind
  constructor
  · intro e st2 p h v2 h2
    by_cases hvalid : e.uploadID = [] ∨ e.userID = []
    · rw [HandleUploadedEvent, if_pos hvalid] at h
      cases h
    · cases hex : findByUploadID st e.uploadID with
      | some existing =>
          rw [HandleUploadedEvent_found st e existing hvalid hex] at h
          have hek := findByUploadID_eq_some hex
          by_cases hup : (patchFromUpload existing e).2 = true
          · rw [if_pos hup] at h
            have hst2 : st2 = saveVideo st (patchFromUpload existing e).1 :=
              ((Prod.mk.injEq _ _ _ _).mp (Except.ok.inj h)).1.symm
            subst hst2
            rw [findByUploadID_save, hfind] at h2
            simp only [Option.map_some'] at h2
            by_cases hsame : (v.uploadID == ((patchFromUpload existing e).1).uploadID) = true
            · have hke : k = e.uploadID := by
                have := hsame
                rw [patchFromUpload_uploadID] at this
                rw [← hvk, ← hek]
                exact eq_of_beq this
              rw [hke, hex] at hfind
              obtain rfl := Option.some.inj hfind
              rw [if_pos hsame] at h2
              obtain rfl := Option.some.inj h2
              exact patchFromUpload_isPrivate _ _ hpriv
            · rw [if_neg hsame] at h2
              obtain rfl := Option.some.inj h2
              exact hpriv
          · rw [if_neg hup] at h
            have hst2 : st2 = st :=
              ((Prod.mk.injEq _ _ _ _).mp (Except.ok.inj h)).1.symm
            subst hst2
            rw [hfind] at h2
            obtain rfl := Option.some.inj h2
            exact hpriv
      | none =>
          rw [HandleUploadedEvent_missing st e hvalid hex] at h
          have hst2 : st2 = createVideo st (mkVideoFromUpload e) :=
            ((Prod.mk.injEq _ _ _ _).mp (Except.ok.inj h)).1.symm
          subst hst2
          rw [createVideo, findByUploadID_append_some st _ k v hfind] at h2
          obtain rfl := Option.some.inj h2
          exact hpriv
  · intro e v2 h2
    cases hex : findByUploadID st e.uploadID with
    | some existing =>
        rw [HandleTranscodedEvent_found st e existing hex] at h2
        have hek := findByUploadID_eq_some hex
        rw [findByUploadID_save, hfind] at h2
        simp only [Option.map_some'] at h2
        by_cases hsame : (v.uploadID == (applyTranscoded existing e).uploadID) = true
        · have hke : k = e.uploadID := by
            have := hsame
            rw [applyTranscoded_uploadID] at this
            rw [← hvk, ← hek]
            exact eq_of_beq this
          rw [hke, hex] at hfind
          obtain rfl := Option.some.inj hfind
          rw [if_pos hsame] at h2
          obtain rfl := Option.some.inj h2
          exact applyTranscoded_isPrivate _ _ hpriv
        · rw [if_neg hsame] at h2
          obtain rfl := Option.some.inj h2
          exact hpriv
    | none =>
        rw [HandleTranscodedEvent_missing st e hex] at h2
        rw [findByUploadID_save, createVideo,
          findByUploadID_append_some st _ k v hfind] at h2
        simp only [Option.map_some'] at h2
        by_cases hsame :
            (v.uploadID == (applyTranscoded (placeholderFromTranscoded e) e).uploadID) = true
        · exfalso
          have hke : k = e.uploadID := by
            have := hsame
            rw [applyTranscoded_uploadID] at this
            rw [← hvk]
            exact eq_of_beq this
          rw [hke, hex] at hfind
          cases hfind
        · rw [if_neg hsame] at h2
          obtain rfl := Option.some.inj h2
          exact hpriv

/-- Claim C8 witness: a concrete private record survives a concrete
finalization event that carries a public flag. -/
theorem claimC8_witness : (applyTranscoded privVid evT1).isPrivate = true :=
  (claimC8 [privVid] (gs "u1") privVid (by decide) (by decide)).2 evT1
    (applyTranscoded privVid evT1) (by decide)

/-- Claim C10: the finalization handler validates nothing — even with
an empty external identifier it creates (rather than rejects) a
placeholder carrying that empty identifier when the lookup misses —
while the registration handler rejects an event with an empty
identifier as invalid. -/
theorem claimC10 (st : List Video) (e : TranscodedEvent)
    (hmiss : findByUploadID st e.uploadID = none)
    (eu : UploadedEvent) (hu : eu.uploadID = []) :
    (∃ v2, findByUploadID (HandleTranscodedEvent st e) e.uploadID = some v2 ∧
        v2.uploadID = e.uploadID) ∧
    HandleUploadedEvent st eu = Except.error "invalid uploaded event" := by
  constructor
  · refine ⟨applyTranscoded (placeholderFromTranscoded e) e, ?_,
      applyTranscoded_uploadID _ _⟩
    rw [HandleTranscodedEvent_missing st e hmiss, findByUploadID_save, createVideo,
      findByUploadID_append_none st _ _ hmiss]
    have hp : findByUploadID [placeholderFromTranscoded e] e.uploadID
        = some (placeholderFromTranscoded e) := by
      unfold findByUploadID
      apply List.find?_cons_of_pos
      simp [placeholderFromTranscoded]
    rw [hp]
    simp [applyTranscoded_uploadID]
  · rw [HandleUploadedEvent, if_pos (Or.inl hu)]

/-- Claim C10 witness: the degenerate events with empty external
identifiers, against the empty store. -/
theorem claimC10_witness :
    (∃ v2, findByUploadID (HandleTranscodedEvent [] evT0) evT0.uploadID = some v2 ∧
        v2.uploadID = evT0.uploadID) ∧
    HandleUploadedEvent [] evU0 = Except.error "invalid uploaded event" :=
  claimC10 [] evT0 (by decide) evU0 (by decide)

/-! ## Commutativity and idempotence of the reconciler -/

/-- A false patch flag means no field changed, so the patched record is
the original. -/
theorem patchFromUpload_noop (x : Video) (e : UploadedEvent)
    (h : (patchFromUpload x e).2 = false) : (patchFromUpload x e).1 = x := by
  unfold patchFromUpload at h ⊢
  simp only [Bool.or_eq_false_iff, decide_eq_false_iff_not] at h
  obtain ⟨⟨⟨⟨⟨⟨⟨h1, h2⟩, h3⟩, h4⟩, h5⟩, h6⟩, h7⟩, h8⟩ := h
  simp only [if_neg h1, if_neg h2, if_neg h3, if_neg h4, if_neg h5, if_neg h6,
    if_neg h7, if_neg h8]

/-- Registration then finalization from the empty store produces the
one merged record. -/
theorem runRegThenFin_eq (ue : UploadedEvent) (te : TranscodedEvent)
    (hv : ¬(ue.uploadID = [] ∨ ue.userID = [])) (hid : te.uploadID = ue.uploadID) :
    runRegThenFin ue te = [applyTranscoded (mkVideoFromUpload ue) te] := by
  unfold runRegThenFin
  rw [HandleUploadedEvent_missing [] ue hv rfl]
  show HandleTranscodedEvent (createVideo [] (mkVideoFromUpload ue)) te = _
  have hfind : findByUploadID (createVideo [] (mkVideoFromUpload ue)) te.uploadID
      = some (mkVideoFromUpload ue) := by
    unfold createVideo findByUploadID
    apply List.find?_cons_of_pos
    simp [mkVideoFromUpload, hid]
  rw [HandleTranscodedEvent_found _ te _ hfind]
  simp [saveVideo, createVideo, applyTranscoded_uploadID]

/-- Finalization then registration from the empty store produces the
one patched record. -/
theorem runFinThenReg_eq (ue : UploadedEvent) (te : TranscodedEvent)
    (hv : ¬(ue.uploadID = [] ∨ ue.userID = [])) (hid : te.uploadID = ue.uploadID) :
    runFinThenReg ue te =
      [(patchFromUpload (applyTranscoded (placeholderFromTranscoded te) te) ue).1] := by
  unfold runFinThenReg
  rw [HandleTranscodedEvent_missing [] te rfl]
  have hst : saveVideo (createVideo [] (placeholderFromTranscoded te))
      (applyTranscoded (placeholderFromTranscoded te) te)
      = [applyTranscoded (placeholderFromTranscoded te) te] := by
    simp [saveVideo, createVideo, applyTranscoded_uploadID]
  rw [hst]
  have hfind : findByUploadID [applyTranscoded (placeholderFromTranscoded te) te]
      ue.uploadID = some (applyTranscoded (placeholderFromTranscoded te) te) := by
    unfold findByUploadID
    apply List.find?_cons_of_pos
    simp [applyTranscoded_uploadID, placeholderFromTranscoded, hid]
  rw [HandleUploadedEvent_found _ ue _ hv hfind]
  by_cases hup :
      (patchFromUpload (applyTranscoded (placeholderFromTranscoded te) te) ue).2 = true
  · rw [if_pos hup]
    show saveVideo _ _ = _
    simp [saveVideo, patchFromUpload_uploadID]
  · rw [if_neg hup]
    show [applyTranscoded (placeholderFromTranscoded te) te] = _
    rw [patchFromUpload_noop _ ue (by simpa using hup)]

/-- The placeholder title is non-empty. -/
theorem untitled_ne_nil : untitled ≠ [] := by decide

/-- Re-filling a title from the very event that produced it is a no-op. -/
theorem selfFill (t : GoString) :
    (if nonEmptyS t untitled = untitled ∧ t ≠ [] then t else nonEmptyS t untitled)
    = nonEmptyS t untitled := by
  by_cases ht : t = []
  · simp [ht]
  · by_cases htu : t = untitled
    · subst htu
      simp [nonEmptyS, untitled_ne_nil]
    · simp [nonEmptyS, ht, htu]

/-- Fill-if-empty merges of two values commute when they do not carry
different non-empty values. -/
theorem fill_comm {β : Type} [DecidableEq β] (a b : List β)
    (h : a = [] ∨ b = [] ∨ a = b) :
    (if a = [] ∧ b ≠ [] then b else a) = (if b = [] ∧ a ≠ [] then a else b) := by
  rcases h with h | h | h
  · subst h
    by_cases hb : b = []
    · simp [hb]
    · simp [hb]
  · subst h
    by_cases ha : a = []
    · simp [ha]
    · simp [ha]
  · subst h
    simp

/-- Title merges commute when the two events do not carry different
non-empty titles (the placeholder default makes this field special). -/
theorem title_comm (ut tt : GoString) (h : ut = [] ∨ tt = [] ∨ ut = tt) :
    (if nonEmptyS ut untitled = untitled ∧ tt ≠ [] then tt else nonEmptyS ut untitled)
    = (if nonEmptyS tt untitled = untitled ∧ ut ≠ [] then ut else nonEmptyS tt untitled) := by
  rcases h with h | h | h
  · rw [h]
    by_cases htt : tt = []
    · simp [htt, nonEmptyS]
    · simp [htt, nonEmptyS, untitled_ne_nil]
  · rw [h]
    by_cases hut : ut = []
    · simp [hut, nonEmptyS]
    · simp [hut, nonEmptyS, untitled_ne_nil]
  · rw [h]

/-- Privacy escalation commutes. -/
theorem priv_comm (p q : Bool) :
    (if p = false ∧ q = true then true else p)
    = (if q = false ∧ p = true then true else q) := by
  cases p <;> cases q <;> simp

/-- Closed form of the observed state after registration-then-
finalization. -/
theorem obs_regThenFin (ue : UploadedEvent) (te : TranscodedEvent) :
    obsState (applyTranscoded (mkVideoFromUpload ue) te) =
      { title := if nonEmptyS ue.title untitled = untitled ∧ te.title ≠ [] then te.title
          else nonEmptyS ue.title untitled
        description := if ue.description = [] ∧ te.description ≠ [] then te.description
          else ue.description
        tagsList := if ue.tags = [] ∧ te.tags ≠ [] then te.tags else ue.tags
        category := if ue.category = [] ∧ te.category ≠ [] then te.category else ue.category
        isPrivate := if ue.isPrivate = false ∧ te.isPrivate = true then true else ue.isPrivate
        status := VideoStatus.ready
        hlsMasterURL := te.hlsMasterURL
        duration := match te.metadata with | some m => m.duration | none => 0
        fileSize := match te.metadata with | some m => m.fileSize | none => 0
        width := match te.metadata with | some m => m.width | none => 0
        height := match te.metadata with | some m => m.height | none => 0
        videoCodec := match te.metadata with | some m => m.videoCodec | none => []
        videoBitrate := match te.metadata with | some m => m.videoBitrate | none => 0
        audioCodec := match te.metadata with | some m => m.audioCodec | none => []
        audioBitrate := match te.metadata with | some m => m.audioBitrate | none => 0
        frameRate := match te.metadata with | some m => m.frameRate | none => 0 } := rfl

/-- Closed form of the observed state after finalization-then-
registration. -/
theorem obs_finThenReg (ue : UploadedEvent) (te : TranscodedEvent) :
    obsState (patchFromUpload (applyTranscoded (placeholderFromTranscoded te) te) ue).1 =
      { title := if nonEmptyS te.title untitled = untitled ∧ ue.title ≠ [] then ue.title
          else nonEmptyS te.title untitled
        description := if te.description = [] ∧ ue.description ≠ [] then ue.description
          else te.description
        tagsList := if te.tags = [] ∧ ue.tags ≠ [] then ue.tags else te.tags
        category := if te.category = [] ∧ ue.category ≠ [] then ue.category else te.category
        isPrivate := if te.isPrivate = false ∧ ue.isPrivate = true then true else te.isPrivate
        status := VideoStatus.ready
        hlsMasterURL := te.hlsMasterURL
        duration := match te.metadata with | some m => m.duration | none => 0
        fileSize := match te.metadata with | some m => m.fileSize | none => 0
        width := match te.metadata with | some m => m.width | none => 0
        height := match te.metadata with | some m => m.height | none => 0
        videoCodec := match te.metadata with | some m => m.videoCodec | none => []
        videoBitrate := match te.metadata with | some m => m.videoBitrate | none => 0
        audioCodec := match te.metadata with | some m => m.audioCodec | none => []
        audioBitrate := match te.metadata with | some m => m.audioBitrate | none => 0
        frameRate := match te.metadata with | some m => m.frameRate | none => 0 } := by
  show obsState
      ({ applyTranscoded (placeholderFromTranscoded te) te with
          username := _, title := _, description := _, tagsList := _, category := _,
          originalFilename := _, rawVideoPath := _, isPrivate := _ }) = _
  simp only [obsState, applyTranscoded, placeholderFromTranscoded, patchFromUpload]
  rw [ObservedState.mk.injEq]
  refine ⟨?_, ?_, ?_, ?_, ?_, rfl, rfl, rfl, rfl, rfl, rfl, rfl, rfl, rfl, rfl, rfl⟩
  · rw [selfFill]
  · by_cases hb : te.description = [] <;> by_cases ha : ue.description = [] <;>
      simp [hb, ha]
  · by_cases hb : te.tags = [] <;> by_cases ha : ue.tags = [] <;> simp [hb, ha]
  · by_cases hb : te.category = [] <;> by_cases ha : ue.category = [] <;> simp [hb, ha]
  · cases hbt : te.isPrivate <;> cases hbu : ue.isPrivate <;> simp [hbt, hbu]

/-- Claim C2 (amended): registration-then-finalization and
finalization-then-registration from the empty store converge to the
same observed record state provided that, for each fill-if-empty
descriptive field (title, description, tags, category), the two events
do not carry different non-empty values. -/
theorem claimC2 (ue : UploadedEvent) (te : TranscodedEvent)
    (hv : ¬(ue.uploadID = [] ∨ ue.userID = [])) (hid : te.uploadID = ue.uploadID)
    (ht : ue.title = [] ∨ te.title = [] ∨ ue.title = te.title)
    (hd : ue.description = [] ∨ te.description = [] ∨ ue.description = te.description)
    (hg : ue.tags = [] ∨ te.tags = [] ∨ ue.tags = te.tags)
    (hc : ue.category = [] ∨ te.category = [] ∨ ue.category = te.category) :
    (runRegThenFin ue te).map obsState = (runFinThenReg ue te).map obsState := by
  rw [runRegThenFin_eq ue te hv hid, runFinThenReg_eq ue te hv hid]
  simp only [List.map_cons, List.map_nil]
  rw [obs_regThenFin, obs_finThenReg]
  rw [List.cons.injEq]
  refine ⟨?_, rfl⟩
  rw [ObservedState.mk.injEq]
  exact ⟨title_comm ue.title te.title ht, fill_comm _ _ hd, fill_comm _ _ hg,
    fill_comm _ _ hc, priv_comm ue.isPrivate te.isPrivate, rfl, rfl, rfl, rfl, rfl,
    rfl, rfl, rfl, rfl, rfl, rfl⟩

/-- Claim C2 counterexample: when both events carry different non-empty
titles (registration title `"A"`, finalization title `"B"`), the two
delivery orders end in different record states, so the claim as stated
is false. -/
theorem claimC2_counterexample :
    ¬((runRegThenFin evU2 evT2).map obsState = (runFinThenReg evU2 evT2).map obsState) := by
  decide

/-- Claim C2 witness: a concrete conflict-free pair of events. -/
theorem claimC2_witness :
    (runRegThenFin evU1 evT1).map obsState = (runFinThenReg evU1 evT1).map obsState :=
  claimC2 evU1 evT1 (by decide) (by decide) (by decide) (by decide) (by decide)
    (by decide)

/-- The only replay condition that can fire on a just-created record:
the title patch, exactly when the event title is the placeholder. -/
theorem title_cond_iff (t : GoString) :
    (nonEmptyS t untitled = untitled ∧ t ≠ []) ↔ t = untitled := by
  by_cases ht : t = []
  · subst ht
    simp [Ne.symm untitled_ne_nil]
  · simp [nonEmptyS, ht]

/-- Replaying a registration event onto the record it just created
changes nothing, and flags an update exactly when the event title is
the placeholder string. -/
theorem patch_self (e : UploadedEvent) :
    patchFromUpload (mkVideoFromUpload e) e =
      (mkVideoFromUpload e, decide (e.title = untitled)) := by
  have hsl : ∀ (s : GoString), (s = [] ∧ s ≠ []) ↔ False := by
    intro s
    constructor
    · rintro ⟨a, b⟩
      exact b a
    · intro hh
      cases hh
  have hst : ∀ (s : List GoString), (s = [] ∧ s ≠ []) ↔ False := by
    intro s
    constructor
    · rintro ⟨a, b⟩
      exact b a
    · intro hh
      cases hh
  have hpb : ∀ (b : Bool), (b = false ∧ b = true) ↔ False := by decide
  simp only [patchFromUpload, mkVideoFromUpload, hsl, hst, hpb, title_cond_iff,
    if_false, decide_False, Bool.false_or, Bool.or_false]
  by_cases hc : e.title = untitled
  · simp [hc, nonEmptyS, untitled_ne_nil]
  · simp [hc]

/-- Claim C4 (amended): replaying a registration event twice from the
empty store yields exactly one record, identical after the second
replay, and neither application errors; the second application issues
a (value-preserving) persist exactly when the event title is the
placeholder `"Untitled Video"`, and no persist otherwise. -/
theorem claimC4 (e : UploadedEvent) (hv : ¬(e.uploadID = [] ∨ e.userID = [])) :
    HandleUploadedEvent [] e = Except.ok ([mkVideoFromUpload e], true) ∧
    HandleUploadedEvent [mkVideoFromUpload e] e =
      Except.ok ([mkVideoFromUpload e], decide (e.title = untitled)) := by
  constructor
  · rw [HandleUploadedEvent_missing [] e hv rfl]
    rfl
  · have hfind : findByUploadID [mkVideoFromUpload e] e.uploadID
        = some (mkVideoFromUpload e) := by
      unfold findByUploadID
      apply List.find?_cons_of_pos
      simp [mkVideoFromUpload]
    rw [HandleUploadedEvent_found _ e _ hv hfind, patch_self]
    by_cases hc : e.title = untitled
    · rw [decide_eq_true hc]
      show Except.ok (saveVideo [mkVideoFromUpload e] (mkVideoFromUpload e), true) = _
      simp [saveVideo]
    · rw [decide_eq_false hc]
      simp

/-- Claim C4 counterexample: for the registration event whose title is
exactly `"Untitled Video"`, the second application reports `true` — a
persist was issued — although the claim states that no persist occurs
on the replay. -/
theorem claimC4_counterexample :
    HandleUploadedEvent [] evU3 = Except.ok ([mkVideoFromUpload evU3], true) ∧
    HandleUploadedEvent [mkVideoFromUpload evU3] evU3 =
      Except.ok ([mkVideoFromUpload evU3], true) := by decide

/-- Claim C4 witness: a concrete event with an ordinary title replays
without a persist. -/
theorem claimC4_witness :
    HandleUploadedEvent [] evU1 = Except.ok ([mkVideoFromUpload evU1], true) ∧
    HandleUploadedEvent [mkVideoFromUpload evU1] evU1 =
      Except.ok ([mkVideoFromUpload evU1], decide (evU1.title = untitled)) :=
  claimC4 evU1 (by decide)

/-! ## Deletion plan (claim C6) -/

/-- `cleanStep` only ever pushes non-empty components. -/
theorem cleanStep_ne_nil (stack : List GoString) (c : GoString)
    (h : ∀ x ∈ stack, x ≠ []) : ∀ x ∈ cleanStep stack c, x ≠ [] := by
  unfold cleanStep
  by_cases h1 : c = [] ∨ c = gs "."
  · rw [if_pos h1]
    exact h
  · rw [if_neg h1]
    by_cases h2 : c = gs ".."
    · rw [if_pos h2]
      cases stack with
      | nil =>
          intro x hx
          rw [List.mem_singleton] at hx
          subst hx
          decide
      | cons top rest =>
          show ∀ x ∈ (if top = gs ".." then c :: top :: rest else rest), x ≠ []
          by_cases h3 : top = gs ".."
          · rw [if_pos h3]
            intro x hx
            rcases List.mem_cons.mp hx with hx | hx
            · subst hx
              subst h2
              decide
            · exact h x hx
          · rw [if_neg h3]
            intro x hx
            exact h x (List.mem_cons_of_mem top hx)
    · rw [if_neg h2]
      intro x hx
      rcases List.mem_cons.mp hx with hx | hx
      · subst hx
        intro hc
        exact h1 (Or.inl hc)
      · exact h x hx

/-- The fold over `cleanStep` preserves non-emptiness of components. -/
theorem foldl_cleanStep_ne_nil (l : List GoString) (stack : List GoString)
    (h : ∀ x ∈ stack, x ≠ []) : ∀ x ∈ l.foldl cleanStep stack, x ≠ [] := by
  induction l generalizing stack with
  | nil => exact h
  | cons c cs ih => exact ih _ (cleanStep_ne_nil stack c h)

/-- Joining a non-empty list of non-empty components gives a non-empty
string. -/
theorem goJoin_ne_nil (sep : GoString) (as : List GoString) (hne : as ≠ [])
    (h : ∀ x ∈ as, x ≠ []) : goJoin sep as ≠ [] := by
  cases as with
  | nil => exact absurd rfl hne
  | cons a rest =>
      cases rest with
      | nil =>
          show a ≠ []
          exact h a (List.mem_singleton_self a)
      | cons b bs =>
          show a ++ sep ++ goJoin sep (b :: bs) ≠ []
          intro hc
          rw [List.append_eq_nil, List.append_eq_nil] at hc
          exact h a (List.mem_cons_self a _) hc.1.1

/-- `Clean` never produces the empty string (it yields `"."` instead). -/
theorem cleanPath_ne_nil (s : GoString) : cleanPath s ≠ [] := by
  unfold cleanPath
  by_cases h : ((goSplit '/' s).foldl cleanStep []).reverse = []
  · rw [if_pos h]
    decide
  · rw [if_neg h]
    apply goJoin_ne_nil _ _ h
    intro x hx
    exact foldl_cleanStep_ne_nil (goSplit '/' s) [] (by simp) x (List.mem_reverse.mp hx)

/-- For a non-empty manifest URL the extracted prefix is non-empty
(the fallback starts with `"hls"`, and a joined marker path is cleaned
to at least `"."`). -/
theorem extractHLSPfx_ne_nil (masterURL userID uploadID : GoString)
    (h : masterURL ≠ []) : extractHLSPfx masterURL userID uploadID ≠ [] := by
  unfold extractHLSPfx
  rw [if_neg h]
  cases hm : findHLSMarker (goSplit '/' masterURL) with
  | some ab =>
      show filepathJoin [hlsStr, ab.1, ab.2] ≠ []
      unfold filepathJoin
      rw [if_neg (by decide : ¬(hlsStr = []))]
      exact cleanPath_ne_nil _
  | none =>
      show hlsStr ++ '/' :: userID ++ '/' :: uploadID ≠ []
      intro hc
      simp at hc

/-- The code-side extraction agrees with the specification-worded
rendition prefix whenever the manifest URL is non-empty. -/
theorem extractHLSPfx_eq_claimed (v : Video) (h : v.hlsMasterURL ≠ []) :
    extractHLSPfx v.hlsMasterURL v.userID v.uploadID = claimedRenditionPfx v := by
  unfold extractHLSPfx claimedRenditionPfx
  rw [if_neg h]

/-- Claim C6 (amended): for every record with a non-empty manifest URL
the derived deletion plan is exactly the plan the specification
describes — raw path if present, deterministic thumbnail path,
rendition prefix (marker extraction with deterministic fallback), and
the catch-all prefix.  (When the manifest URL is empty the code emits
no rendition prefix at all, not even the fallback.) -/
theorem claimC6 (v : Video) (h : v.hlsMasterURL ≠ []) :
    buildDeletePlan v = claimedPlan v := by
  have hextr : extractHLSPfx v.hlsMasterURL v.userID v.uploadID ≠ [] :=
    extractHLSPfx_ne_nil _ _ _ h
  simp only [buildDeletePlan, claimedPlan]
  rw [DeletePlan.mk.injEq]
  refine ⟨rfl, ?_⟩
  rw [if_pos h, extractHLSPfx_eq_claimed v h,
    if_pos (by rw [← extractHLSPfx_eq_claimed v h]; exact hextr)]
  rfl

/-- Claim C6 counterexample: for a record with an empty manifest URL
the claim puts the fallback rendition prefix `"hls/o/u2"` in the plan,
but the code's plan contains no rendition prefix at all. -/
theorem claimC6_counterexample :
    claimedRenditionPfx vid2 ∈ (claimedPlan vid2).prefixes ∧
    claimedRenditionPfx vid2 ∉ (buildDeletePlan vid2).prefixes ∧
    buildDeletePlan vid2 ≠ claimedPlan vid2 := by decide

/-- Claim C6 witness: the fully populated record, whose manifest URL
carries the `hls` marker. -/
theorem claimC6_witness : buildDeletePlan vid1 = claimedPlan vid1 :=
  claimC6 vid1 (by decide)

/-! ## Deletion orchestration (claims C1 and C7) -/

/-- The existence check of a planned object is always attempted,
whatever the storage outcomes. -/
theorem deleteFileIfExists_checks (env : DeleteEnv) (p : GoString) :
    DelOp.checkExists p ∈ (deleteFileIfExists env p).2 := by
  unfold deleteFileIfExists
  cases env.existsRes p with
  | error u => simp
  | ok b =>
      cases b with
      | false => simp
      | true =>
          cases env.deleteRes p with
          | error u => simp
          | ok u => simp

/-- The file loop issues only existence checks and blob deletions. -/
theorem deleteFileIfExists_shape (env : DeleteEnv) (p : GoString) :
    ∀ o ∈ (deleteFileIfExists env p).2,
      o = DelOp.checkExists p ∨ o = DelOp.deleteBlob p := by
  unfold deleteFileIfExists
  cases env.existsRes p with
  | error u => simp
  | ok b =>
      cases b with
      | false => simp
      | true =>
          cases env.deleteRes p with
          | error u => simp [or_assoc]
          | ok u => simp [or_assoc]

/-- Closed form of `DeleteVideoCompletely` on a loadable record: the
result and final catalog depend only on the row deletion, and the
trace is the full storage pass followed by the row deletion. -/
theorem DeleteVideoCompletely_found (env : DeleteEnv) (cat : List (Nat × Video))
    (id : Nat) (v : Video) (hfind : lookupCat cat id = some v)
    (hget : env.dbGetOk = true) :
    DeleteVideoCompletely env cat id =
      ((if env.dbDeleteOk then DeleteResult.ok else DeleteResult.dbDeleteFailed),
       (if env.dbDeleteOk then removeCat cat id else cat),
       ((buildDeletePlan v).paths.flatMap (fun p => (deleteFileIfExists env p).2) ++
        (buildDeletePlan v).prefixes.map DelOp.deletePfx) ++ [DelOp.dbDelete id]) := by
  by_cases hdb : env.dbDeleteOk = true
  · simp [DeleteVideoCompletely, hfind, hget, hdb]
  · simp [DeleteVideoCompletely, hfind, hget, hdb]

/-- Claim C1 (amended): whatever individual storage failures occur —
in particular a failed thumbnail deletion with successful prefix
deletions — the orchestrator still attempts every object and every
prefix, removes the catalog row, and the overall result is the plain
success value (the partial storage failure is only logged; it is not a
distinct result and not a total failure). -/
theorem claimC1 (env : DeleteEnv) (cat : List (Nat × Video)) (id : Nat) (v : Video)
    (hfind : lookupCat cat id = some v) (hget : env.dbGetOk = true)
    (hdb : env.dbDeleteOk = true) :
    (DeleteVideoCompletely env cat id).1 = DeleteResult.ok ∧
    (DeleteVideoCompletely env cat id).2.1 = removeCat cat id ∧
    (∀ p ∈ (buildDeletePlan v).paths,
        DelOp.checkExists p ∈ (DeleteVideoCompletely env cat id).2.2) ∧
    (∀ q ∈ (buildDeletePlan v).prefixes,
        DelOp.deletePfx q ∈ (DeleteVideoCompletely env cat id).2.2) := by
  rw [DeleteVideoCompletely_found env cat id v hfind hget]
  rw [if_pos hdb, if_pos hdb]
  refine ⟨rfl, rfl, ?_, ?_⟩
  · intro p hp
    apply List.mem_append_left
    apply List.mem_append_left
    exact List.mem_flatMap.mpr ⟨p, hp, deleteFileIfExists_checks env p⟩
  · intro q hq
    apply List.mem_append_left
    apply List.mem_append_right
    exact List.mem_map_of_mem _ hq

/-- Claim C1 counterexample: in the concrete scenario of the claim —
thumbnail deletion fails, prefix deletions succeed, row deletion
succeeds — the overall result is the plain success value, identical to
the result of the fully successful run, so the operation does not
report a partial storage failure rather than plain success. -/
theorem claimC1_counterexample :
    (deleteFileIfExists envThumbFail (thumbnailPath vid1)).1 = Except.error () ∧
    (DeleteVideoCompletely envThumbFail cat1 1).1 = DeleteResult.ok ∧
    (DeleteVideoCompletely envThumbFail cat1 1).1 =
      (DeleteVideoCompletely envOk cat1 1).1 := by decide

/-- Claim C1 witness: the thumbnail-failure scenario instantiating the
amended claim. -/
theorem claimC1_witness :
    (DeleteVideoCompletely envThumbFail cat1 1).1 = DeleteResult.ok ∧
    (DeleteVideoCompletely envThumbFail cat1 1).2.1 = removeCat cat1 1 ∧
    (∀ p ∈ (buildDeletePlan vid1).paths,
        DelOp.checkExists p ∈ (DeleteVideoCompletely envThumbFail cat1 1).2.2) ∧
    (∀ q ∈ (buildDeletePlan vid1).prefixes,
        DelOp.deletePfx q ∈ (DeleteVideoCompletely envThumbFail cat1 1).2.2) :=
  claimC1 envThumbFail cat1 1 vid1 (by decide) rfl rfl

/-- Claim C7: the row deletion is the last call of the trace, after
the whole storage pass (which covers every planned object and prefix
and never issues a row deletion itself); and when the row deletion
fails the operation reports the failure and leaves the catalog
unchanged, so the caller can retry. -/
theorem claimC7 (env : DeleteEnv) (cat : List (Nat × Video)) (id : Nat) (v : Video)
    (hfind : lookupCat cat id = some v) (hget : env.dbGetOk = true) :
    ∃ ops, (DeleteVideoCompletely env cat id).2.2 = ops ++ [DelOp.dbDelete id] ∧
      (∀ o ∈ ops, o ≠ DelOp.dbDelete id) ∧
      (∀ p ∈ (buildDeletePlan v).paths, DelOp.checkExists p ∈ ops) ∧
      (∀ q ∈ (buildDeletePlan v).prefixes, DelOp.deletePfx q ∈ ops) ∧
      (env.dbDeleteOk = false →
        (DeleteVideoCompletely env cat id).1 = DeleteResult.dbDeleteFailed ∧
        (DeleteVideoCompletely env cat id).2.1 = cat) := by
  rw [DeleteVideoCompletely_found env cat id v hfind hget]
  refine ⟨(buildDeletePlan v).paths.flatMap (fun p => (deleteFileIfExists env p).2) ++
    (buildDeletePlan v).prefixes.map DelOp.deletePfx, rfl, ?_, ?_, ?_, ?_⟩
  · intro o ho
    rcases List.mem_append.mp ho with ho | ho
    · obtain ⟨p, -, hop⟩ := List.mem_flatMap.mp ho
      rcases deleteFileIfExists_shape env p o hop with rfl | rfl <;> simp
    · obtain ⟨q, -, rfl⟩ := List.mem_map.mp ho
      simp
  · intro p hp
    apply List.mem_append_left
    exact List.mem_flatMap.mpr ⟨p, hp, deleteFileIfExists_checks env p⟩
  · intro q hq
    apply List.mem_append_right
    exact List.mem_map_of_mem _ hq
  · intro hdb
    rw [if_neg (by simp [hdb]), if_neg (by simp [hdb])]
    exact ⟨rfl, rfl⟩

/-- Claim C7 witness: the failing-row-deletion scenario. -/
theorem claimC7_witness :
    ∃ ops, (DeleteVideoCompletely envDbFail cat1 1).2.2 = ops ++ [DelOp.dbDelete 1] ∧
      (∀ o ∈ ops, o ≠ DelOp.dbDelete 1) ∧
      (∀ p ∈ (buildDeletePlan vid1).paths, DelOp.checkExists p ∈ ops) ∧
      (∀ q ∈ (buildDeletePlan vid1).prefixes, DelOp.deletePfx q ∈ ops) ∧
      (envDbFail.dbDeleteOk = false →
        (DeleteVideoCompletely envDbFail cat1 1).1 = DeleteResult.dbDeleteFailed ∧
        (DeleteVideoCompletely envDbFail cat1 1).2.1 = cat1) :=
  claimC7 envDbFail cat1 1 vid1 (by decide) rfl

/-! ## PostgreSQL array round-trip (claim C9) -/

/-- Quote-doubling is the identity on quote-free text. -/
theorem flatMap_escape_id (t : GoString) (h : ∀ c ∈ t, c ≠ '"') :
    (t.flatMap (fun c => if c = '"' then ['"', '"'] else [c])) = t := by
  induction t with
  | nil => rfl
  | cons c cs ih =>
      have hc : c ≠ '"' := h c (List.mem_cons_self c cs)
      simp only [List.flatMap_cons, if_neg hc]
      rw [ih (fun d hd => h d (List.mem_cons_of_mem c hd))]
      rfl

/-- Splitting a separator-free string yields that one part. -/
theorem goSplit_no_sep (sep : Char) (q : GoString) (h : ∀ c ∈ q, c ≠ sep) :
    goSplit sep q = [q] := by
  induction q with
  | nil => rfl
  | cons c cs ih =>
      have hc : c ≠ sep := h c (List.mem_cons_self c cs)
      unfold goSplit
      rw [if_neg hc, ih (fun d hd => h d (List.mem_cons_of_mem c hd))]

/-- Splitting peels off a separator-free front part. -/
theorem goSplit_append_sep (sep : Char) (q r : GoString) (h : ∀ c ∈ q, c ≠ sep) :
    goSplit sep (q ++ sep :: r) = q :: goSplit sep r := by
  induction q with
  | nil =>
      show goSplit sep (sep :: r) = [] :: goSplit sep r
      conv_lhs => unfold goSplit
      rw [if_pos rfl]
  | cons c cs ih =>
      have hc : c ≠ sep := h c (List.mem_cons_self c cs)
      show goSplit sep (c :: (cs ++ sep :: r)) = (c :: cs) :: goSplit sep r
      conv_lhs => unfold goSplit
      rw [if_neg hc, ih (fun d hd => h d (List.mem_cons_of_mem c hd))]

/-- Splitting inverts joining for separator-free parts. -/
theorem goSplit_goJoin (sep : Char) (qs : List GoString) (hne : qs ≠ [])
    (h : ∀ q ∈ qs, ∀ c ∈ q, c ≠ sep) :
    goSplit sep (goJoin [sep] qs) = qs := by
  induction qs with
  | nil => exact absurd rfl hne
  | cons q qs2 ih =>
      cases qs2 with
      | nil =>
          show goSplit sep q = [q]
          exact goSplit_no_sep sep q (h q (List.mem_cons_self q []))
      | cons b bs =>
          show goSplit sep (q ++ [sep] ++ goJoin [sep] (b :: bs)) = q :: (b :: bs)
          rw [List.append_assoc, List.singleton_append,
            goSplit_append_sep sep q _ (h q (List.mem_cons_self q _)),
            ih (by simp) (fun p hp c hc => h p (List.mem_cons_of_mem q hp) c hc)]

/-- Dropping while a predicate fails everywhere drops nothing. -/
theorem dropWhile_of_forall_neg (p : Char → Bool) (l : GoString)
    (h : ∀ c ∈ l, ¬p c = true) : l.dropWhile p = l := by
  cases l with
  | nil => rfl
  | cons c cs => exact List.dropWhile_cons_of_neg (h c (List.mem_cons_self c cs))

/-- The brace cutset strips exactly the outer braces off an encoded
array whose body is quote-delimited. -/
theorem trim_braces (w : GoString) :
    trimCutset isBrace ('\x7b' :: (quoteWrap w) ++ ['\x7d']) = quoteWrap w := by
  show (((('\x7b' :: (quoteWrap w ++ ['\x7d'])).dropWhile isBrace).reverse.dropWhile
    isBrace).reverse) = quoteWrap w
  rw [List.dropWhile_cons_of_pos (by decide)]
  show (((('"' :: ((w ++ ['"']) ++ ['\x7d'])).dropWhile isBrace).reverse.dropWhile
    isBrace).reverse) = quoteWrap w
  rw [List.dropWhile_cons_of_neg (by decide), List.append_assoc]
  rw [List.reverse_cons, List.reverse_append]
  show (((('\x7d' :: '"' :: (w.reverse ++ ['"'])).dropWhile isBrace).reverse)) = quoteWrap w
  rw [List.dropWhile_cons_of_pos (by decide), List.dropWhile_cons_of_neg (by decide)]
  rw [List.reverse_cons, List.reverse_append, List.reverse_reverse]
  rfl

/-- The quote cutset strips exactly the wrapping quotes off a quoted
non-empty quote-free tag. -/
theorem trim_quotes (t : GoString) (hne : t ≠ []) (h : ∀ c ∈ t, c ≠ '"') :
    trimCutset (fun c => c = '"') (quoteWrap t) = t := by
  show (((('"' :: (t ++ ['"'])).dropWhile (fun c => c = '"')).reverse.dropWhile
    (fun c => c = '"')).reverse) = t
  rw [List.dropWhile_cons_of_pos (by decide)]
  cases t with
  | nil => exact absurd rfl hne
  | cons c cs =>
      have hc : c ≠ '"' := h c (List.mem_cons_self c cs)
      show (((c :: (cs ++ ['"'])).dropWhile (fun x => x = '"')).reverse.dropWhile
        (fun x => x = '"')).reverse = c :: cs
      rw [List.dropWhile_cons_of_neg (by simpa using hc)]
      rw [List.reverse_cons, List.reverse_append]
      show ((('"' :: (cs.reverse ++ [c])).dropWhile (fun x => x = '"')).reverse) = c :: cs
      rw [List.dropWhile_cons_of_pos (by decide)]
      rw [dropWhile_of_forall_neg _ _ ?_]
      · rw [List.reverse_append, List.reverse_reverse]
        rfl
      · intro d hd
        rcases List.mem_append.mp hd with hd | hd
        · simpa using h d (List.mem_cons_of_mem c (List.mem_reverse.mp hd))
        · rw [List.mem_singleton] at hd
          subst hd
          simpa using hc

/-- Undoubling quotes is the identity on quote-free text. -/
theorem replQQ_no_quote (t : GoString) (h : ∀ c ∈ t, c ≠ '"') : replQQ t = t := by
  induction t with
  | nil => rfl
  | cons c cs ih =>
      have hc : c ≠ '"' := h c (List.mem_cons_self c cs)
      cases cs with
      | nil => rfl
      | cons d ds =>
          show replQQ (c :: d :: ds) = c :: d :: ds
          unfold replQQ
          rw [if_neg (fun hcd => hc hcd.1)]
          rw [ih (fun x hx => h x (List.mem_cons_of_mem c hx))]

/-- The joined body of a non-empty encoded array is quote-delimited. -/
theorem goJoin_quoted_shape (t0 : GoString) (rest : List GoString) :
    ∃ w, goJoin [','] ((t0 :: rest).map quoteWrap) = quoteWrap w := by
  induction rest generalizing t0 with
  | nil => exact ⟨t0, rfl⟩
  | cons b bs ih =>
      obtain ⟨w2, hw2⟩ := ih b
      refine ⟨t0 ++ ['"', ','] ++ ('"' :: w2), ?_⟩
      show quoteWrap t0 ++ [','] ++ goJoin [','] ((b :: bs).map quoteWrap) = _
      rw [hw2]
      unfold quoteWrap
      simp

/-- Claim C9: encoding a list of non-empty tags free of commas,
double-quotes and braces to the PostgreSQL array string and decoding
it back returns the original list in order; the empty list round-trips
to the empty list. -/
theorem claimC9 (tags : List GoString)
    (h : ∀ t ∈ tags, t ≠ [] ∧ ∀ c ∈ t, c ≠ ',' ∧ c ≠ '"' ∧ c ≠ '\x7b' ∧ c ≠ '\x7d') :
    convertPostgresArrayToSlice (convertSliceToPostgresArray tags) = tags := by
  cases tags with
  | nil => rfl
  | cons t0 rest =>
      have hq : ∀ t ∈ t0 :: rest, ∀ c ∈ t, c ≠ '"' :=
        fun t ht c hc => ((h t ht).2 c hc).2.1
      have hcomma : ∀ t ∈ t0 :: rest, ∀ c ∈ t, c ≠ ',' :=
        fun t ht c hc => ((h t ht).2 c hc).1
      have henc : convertSliceToPostgresArray (t0 :: rest)
          = '\x7b' :: (goJoin [','] ((t0 :: rest).map quoteWrap)) ++ ['\x7d'] := by
        unfold convertSliceToPostgresArray
        rw [if_neg (by simp)]
        have hmap : (t0 :: rest).map (fun item =>
            '"' :: (item.flatMap (fun c => if c = '"' then ['"', '"'] else [c])) ++ ['"'])
            = (t0 :: rest).map quoteWrap := by
          apply List.map_congr_left
          intro t ht
          unfold quoteWrap
          rw [flatMap_escape_id t (hq t ht)]
        rw [hmap]
      obtain ⟨w, hw⟩ := goJoin_quoted_shape t0 rest
      rw [henc, hw]
      unfold convertPostgresArrayToSlice
      rw [if_neg ?hpg]
      case hpg =>
        unfold quoteWrap bracePair
        simp
      rw [trim_braces w, if_neg ?htr]
      case htr =>
        unfold quoteWrap
        simp
      rw [show quoteWrap w = goJoin [','] ((t0 :: rest).map quoteWrap) from hw.symm]
      rw [goSplit_goJoin ',' _ (by simp) ?hsep]
      case hsep =>
        intro q hqm c hc
        obtain ⟨t, ht, rfl⟩ := List.mem_map.mp hqm
        unfold quoteWrap at hc
        rcases List.mem_cons.mp hc with rfl | hc
        · decide
        · rcases List.mem_append.mp hc with hc | hc
          · exact hcomma t ht c hc
          · rw [List.mem_singleton] at hc
            subst hc
            decide
      rw [List.map_map]
      have : ∀ t ∈ t0 :: rest,
          (replQQ (trimCutset (fun c => c = '"') (quoteWrap t))) = t := by
        intro t ht
        rw [trim_quotes t (h t ht).1 (hq t ht), replQQ_no_quote t (hq t ht)]
      calc (t0 :: rest).map (fun t => replQQ (trimCutset (fun c => c = '"') (quoteWrap t)))
          = (t0 :: rest).map id := List.map_congr_left this
        _ = t0 :: rest := List.map_id _

/-- Claim C9 witness: the two-tag list round-trips. -/
theorem claimC9_witness :
    convertPostgresArrayToSlice (convertSliceToPostgresArray [gs "a", gs "b"])
      = [gs "a", gs "b"] :=
  claimC9 [gs "a", gs "b"] (by decide)

/-! ## Storage gateway resilience envelope (claim C5) -/

/-- The retry loop makes at most `n` attempts. -/
theorem runRetry_length (toMs : Nat) (oracle : Nat → Bool) (kind : CallKind) :
    ∀ (n i backoff pend : Nat),
      (runRetry toMs oracle kind n i backoff pend).2.length ≤ n := by
  intro n
  induction n with
  | zero =>
      intro i backoff pend
      simp [runRetry]
  | succ n ih =>
      intro i backoff pend
      cases n with
      | zero =>
          by_cases ho : oracle i = true
          · simp [runRetry, ho]
          · simp [runRetry, ho]
      | succ m =>
          by_cases ho : oracle i = true
          · simp [runRetry, ho]
          · have h := ih (i + 1) (nextBackoff backoff) backoff
            simp only [runRetry, ho, Bool.false_eq_true, if_false, List.length_cons]
            exact Nat.succ_le_succ h

/-- The retry loop makes at least one attempt when any are allowed. -/
theorem runRetry_length_pos (toMs : Nat) (oracle : Nat → Bool) (kind : CallKind) :
    ∀ (n i backoff pend : Nat), n ≠ 0 →
      1 ≤ (runRetry toMs oracle kind n i backoff pend).2.length := by
  intro n
  cases n with
  | zero =>
      intro i backoff pend hn
      exact absurd rfl hn
  | succ n =>
      intro i backoff pend hn
      cases n with
      | zero =>
          by_cases ho : oracle i = true
          · simp [runRetry, ho]
          · simp [runRetry, ho]
      | succ m =>
          by_cases ho : oracle i = true
          · simp [runRetry, ho]
          · simp [runRetry, ho]

/-- Every attempt of the retry loop carries the per-attempt timeout,
the breaker, and the call kind of the loop. -/
theorem runRetry_attempts (toMs : Nat) (oracle : Nat → Bool) (kind : CallKind) :
    ∀ (n i backoff pend : Nat),
      ∀ r ∈ (runRetry toMs oracle kind n i backoff pend).2,
        r.kind = kind ∧ r.timeoutMs = some toMs ∧ r.viaBreaker = true := by
  intro n
  induction n with
  | zero =>
      intro i backoff pend r hr
      simp [runRetry] at hr
  | succ n ih =>
      intro i backoff pend r hr
      cases n with
      | zero =>
          by_cases ho : oracle i = true
          · simp [runRetry, ho] at hr
            subst hr
            exact ⟨rfl, rfl, rfl⟩
          · simp [runRetry, ho] at hr
            subst hr
            exact ⟨rfl, rfl, rfl⟩
      | succ m =>
          by_cases ho : oracle i = true
          · simp [runRetry, ho] at hr
            subst hr
            exact ⟨rfl, rfl, rfl⟩
          · simp only [runRetry, ho, Bool.false_eq_true, if_false, List.mem_cons] at hr
            rcases hr with rfl | hr
            · exact ⟨rfl, rfl, rfl⟩
            · exact ih (i + 1) (nextBackoff backoff) backoff r hr

/-- The sleeps of the retry loop: nothing before the first attempt,
then the running backoff. -/
theorem runRetry_sleeps (toMs : Nat) (oracle : Nat → Bool) (kind : CallKind) :
    ∀ (n i backoff pend : Nat), n ≠ 0 →
      (runRetry toMs oracle kind n i backoff pend).2.map (fun a => a.sleptBeforeMs)
        = pend ::
          geomFrom backoff ((runRetry toMs oracle kind n i backoff pend).2.length - 1) := by
  intro n
  induction n with
  | zero =>
      intro i backoff pend hn
      exact absurd rfl hn
  | succ n ih =>
      intro i backoff pend hn
      cases n with
      | zero =>
          by_cases ho : oracle i = true
          · simp [runRetry, ho, geomFrom]
          · simp [runRetry, ho, geomFrom]
      | succ m =>
          by_cases ho : oracle i = true
          · simp [runRetry, ho, geomFrom]
          · have hrec := ih (i + 1) (nextBackoff backoff) backoff (by simp)
            have hpos := runRetry_length_pos toMs oracle kind (Nat.succ m) (i + 1)
              (nextBackoff backoff) backoff (by simp)
            simp only [runRetry, ho, Bool.false_eq_true, if_false, List.map_cons,
              List.length_cons]
            rw [hrec]
            obtain ⟨t, ht⟩ : ∃ t,
                (runRetry toMs oracle kind (Nat.succ m) (i + 1) (nextBackoff backoff)
                  backoff).2.length = t + 1 := ⟨_, (Nat.succ_pred_eq_of_pos hpos).symm⟩
            rw [ht]
            simp [geomFrom]

/-- One doubling step stays on the capped geometric schedule. -/
theorem nextBackoff_min (i : Nat) :
    nextBackoff (min (200 * 2 ^ i) 1600) = min (200 * 2 ^ (i + 1)) 1600 := by
  by_cases hi : i ≤ 2
  · interval_cases i <;> decide
  · have h8 : (8 : Nat) ≤ 2 ^ i := by
      calc (8 : Nat) = 2 ^ 3 := by norm_num
        _ ≤ 2 ^ i := Nat.pow_le_pow_right (by norm_num) (by omega)
    have hmin : min (200 * 2 ^ i) 1600 = 1600 := Nat.min_eq_right (by nlinarith)
    have hmin2 : min (200 * 2 ^ (i + 1)) 1600 = 1600 := by
      have : (8 : Nat) ≤ 2 ^ (i + 1) := le_trans h8 (Nat.pow_le_pow_right (by norm_num) (by omega))
      exact Nat.min_eq_right (by nlinarith)
    rw [hmin, hmin2]
    decide

/-- The generated backoff sequence is the capped 200 ms doubling. -/
theorem geomFrom_min (k : Nat) :
    ∀ i, geomFrom (min (200 * 2 ^ i) 1600) k
      = (List.range k).map (fun j => min (200 * 2 ^ (i + j)) 1600) := by
  induction k with
  | zero => intro i; rfl
  | succ k ih =>
      intro i
      show min (200 * 2 ^ i) 1600 :: geomFrom (nextBackoff (min (200 * 2 ^ i) 1600)) k = _
      rw [nextBackoff_min, ih (i + 1), List.range_succ_eq_map, List.map_cons,
        List.map_map]
      rw [Nat.add_zero]
      congr 1
      apply List.map_congr_left
      intro j hj
      show min (200 * 2 ^ (i + 1 + j)) 1600 = min (200 * 2 ^ (i + (j + 1))) 1600
      rw [show i + 1 + j = i + (j + 1) by omega]

/-- The sleeps of `DeleteBlob` follow the claimed schedule exactly:
none before the first attempt, then 200 ms doubling capped at 1.6 s. -/
theorem DeleteBlob_sleeps (cfg : RetryConfig) (oracle : Nat → Bool) (path : GoString) :
    (DeleteBlob cfg oracle path).2.map (fun a => a.sleptBeforeMs)
      = (List.range (DeleteBlob cfg oracle path).2.length).map expSleep := by
  unfold DeleteBlob
  rw [runRetry_sleeps cfg.attemptTimeoutMs oracle (CallKind.deleteOne path)
    (cfg.retries + 1) 0 200 0 (by simp)]
  have hpos := runRetry_length_pos cfg.attemptTimeoutMs oracle (CallKind.deleteOne path)
    (cfg.retries + 1) 0 200 0 (by simp)
  obtain ⟨t, ht⟩ : ∃ t, (runRetry cfg.attemptTimeoutMs oracle (CallKind.deleteOne path)
      (cfg.retries + 1) 0 200 0).2.length = t + 1 :=
    ⟨_, (Nat.succ_pred_eq_of_pos hpos).symm⟩
  rw [ht]
  rw [show (200 : Nat) = min (200 * 2 ^ 0) 1600 by decide]
  rw [Nat.add_sub_cancel, geomFrom_min t 0, List.range_succ_eq_map, List.map_cons,
    List.map_map]
  show (0 : Nat) :: _ = expSleep 0 :: _
  congr 1
  apply List.map_congr_left
  intro j hj
  show min (200 * 2 ^ (0 + j)) 1600 = expSleep (j + 1)
  rw [Nat.zero_add]
  rfl

/-- Every record of the inner blob loop is a delete-one attempt. -/
theorem deletePageBlobs_kinds (cfg : RetryConfig) (blobOracle : GoString → Nat → Bool) :
    ∀ (names : List GoString) (r : AttemptRec),
      r ∈ (deletePageBlobs cfg blobOracle names).2 →
      ∃ nm, r.kind = CallKind.deleteOne nm := by
  intro names
  induction names with
  | nil =>
      intro r hr
      simp [deletePageBlobs] at hr
  | cons nm rest ih =>
      intro r hr
      by_cases hs : (DeleteBlob cfg (blobOracle nm) nm).1 = true
      · simp only [deletePageBlobs, hs, if_true, List.mem_append] at hr
        rcases hr with hr | hr
        · exact ⟨nm, (runRetry_attempts _ _ _ _ _ _ _ r hr).1⟩
        · exact ih r hr
      · simp only [deletePageBlobs, hs, Bool.false_eq_true, if_false] at hr
        exact ⟨nm, (runRetry_attempts _ _ _ _ _ _ _ r hr).1⟩

/-- Every list-page attempt of the prefix deletion runs without a
per-attempt timeout and without a preceding backoff sleep, under the
breaker only. -/
theorem deleteBlobsWithPfx_listPage (cfg : RetryConfig) (pageOracle : Nat → Bool)
    (blobOracle : GoString → Nat → Bool) (pfx : GoString) :
    ∀ (pages : List (List GoString)) (firstPage : Nat) (r : AttemptRec),
      r ∈ (DeleteBlobsWithPfx cfg pageOracle blobOracle pfx firstPage pages).2 →
      ∀ pp k, r.kind = CallKind.listPage pp k →
        r.timeoutMs = none ∧ r.sleptBeforeMs = 0 ∧ r.viaBreaker = true := by
  intro pages
  induction pages with
  | nil =>
      intro fp r hr
      simp [DeleteBlobsWithPfx] at hr
  | cons names more ih =>
      intro fp r hr pp k hk
      by_cases h1 : (listPageFetch pageOracle pfx fp).1 = true
      · by_cases h2 : (deletePageBlobs cfg blobOracle names).1 = true
        · simp only [DeleteBlobsWithPfx, h1, h2, if_true, List.mem_cons,
            List.mem_append] at hr
          rcases hr with (rfl | hr) | hr
          · exact ⟨rfl, rfl, rfl⟩
          · obtain ⟨nm, hnm⟩ := deletePageBlobs_kinds cfg blobOracle names r hr
            rw [hk] at hnm
            cases hnm
          · exact ih (fp + 1) r hr pp k hk
        · simp only [DeleteBlobsWithPfx, h1, h2, Bool.false_eq_true, if_true,
            if_false, List.mem_cons] at hr
          rcases hr with rfl | hr
          · exact ⟨rfl, rfl, rfl⟩
          · obtain ⟨nm, hnm⟩ := deletePageBlobs_kinds cfg blobOracle names r hr
            rw [hk] at hnm
            cases hnm
      · simp only [DeleteBlobsWithPfx, h1, Bool.false_eq_true, if_false,
          List.mem_singleton] at hr
        subst hr
        exact ⟨rfl, rfl, rfl⟩

/-- A failed page fetch aborts the prefix deletion after that single
breaker-wrapped attempt: no retry, no backoff, no fresh timeout. -/
theorem deleteBlobsWithPfx_fail_fast (cfg : RetryConfig) (pageOracle : Nat → Bool)
    (blobOracle : GoString → Nat → Bool) (pfx : GoString) (firstPage : Nat)
    (names : List GoString) (more : List (List GoString))
    (h : pageOracle firstPage = false) :
    DeleteBlobsWithPfx cfg pageOracle blobOracle pfx firstPage (names :: more)
      = (false, [(listPageFetch pageOracle pfx firstPage).2]) := by
  have h1 : (listPageFetch pageOracle pfx firstPage).1 = false := h
  simp [DeleteBlobsWithPfx, h1]

/-- Claim C5 (amended): `DeleteBlob` is wrapped in the full envelope —
at most `retries + 1` attempts (default 2 retries), each with the
per-attempt timeout (default 3000 ms) and under the shared breaker,
with sleeps following the 200 ms exponential backoff capped at
1600 ms — while the list-page call of the prefix deletion is guarded
only by the shared breaker: it runs under the caller's context with no
per-attempt timeout, no backoff, and a failed fetch is never retried. -/
theorem claimC5 (cfg : RetryConfig) (oracle pageOracle : Nat → Bool)
    (blobOracle : GoString → Nat → Bool) (path pfx : GoString)
    (pages : List (List GoString)) (firstPage : Nat)
    (r : AttemptRec) (hr : r ∈ (DeleteBlob cfg oracle path).2)
    (r2 : AttemptRec)
    (hr2 : r2 ∈ (DeleteBlobsWithPfx cfg pageOracle blobOracle pfx firstPage pages).2)
    (pp : GoString) (k : Nat) (hk : r2.kind = CallKind.listPage pp k)
    (names : List GoString) (more : List (List GoString))
    (hpf : pageOracle firstPage = false) :
    (DeleteBlob cfg oracle path).2.length ≤ cfg.retries + 1 ∧
    r.kind = CallKind.deleteOne path ∧
    r.timeoutMs = some cfg.attemptTimeoutMs ∧
    r.viaBreaker = true ∧
    (DeleteBlob cfg oracle path).2.map (fun a => a.sleptBeforeMs)
      = (List.range (DeleteBlob cfg oracle path).2.length).map expSleep ∧
    r2.timeoutMs = none ∧ r2.sleptBeforeMs = 0 ∧ r2.viaBreaker = true ∧
    DeleteBlobsWithPfx cfg pageOracle blobOracle pfx firstPage (names :: more)
      = (false, [(listPageFetch pageOracle pfx firstPage).2]) := by
  have ha := runRetry_attempts cfg.attemptTimeoutMs oracle (CallKind.deleteOne path)
    (cfg.retries + 1) 0 200 0 r hr
  have hl := deleteBlobsWithPfx_listPage cfg pageOracle blobOracle pfx pages firstPage
    r2 hr2 pp k hk
  exact ⟨runRetry_length _ _ _ _ _ _ _, ha.1, ha.2.1, ha.2.2,
    DeleteBlob_sleeps cfg oracle path, hl.1, hl.2.1, hl.2.2,
    deleteBlobsWithPfx_fail_fast cfg pageOracle blobOracle pfx firstPage names more hpf⟩

/-- Claim C5 counterexample: against the same dependency that fails
once and then recovers, `DeleteBlob` retries and succeeds on its
second attempt, while the list-page fetch of the prefix deletion fails
for good after exactly one attempt that carries no per-attempt timeout
— the two calls are not wrapped in the same resilience envelope. -/
theorem claimC5_counterexample :
    (DeleteBlob {} flakyOnce (gs "p")).1 = true ∧
    (DeleteBlob {} flakyOnce (gs "p")).2.length = 2 ∧
    DeleteBlobsWithPfx {} flakyOnce (fun _ _ => true) (gs "hls/u/x") 0 [[gs "b"]]
      = (false,
         [{ kind := CallKind.listPage (gs "hls/u/x") 0, timeoutMs := none,
            sleptBeforeMs := 0, viaBreaker := true }]) := by decide

/-- Claim C5 witness: the default configuration against the
fail-once-then-recover dependency. -/
theorem claimC5_witness :
    (DeleteBlob {} flakyOnce (gs "p")).2.length ≤ ({} : RetryConfig).retries + 1 ∧
    ((DeleteBlob {} flakyOnce (gs "p")).2.get ⟨0, by decide⟩).kind
        = CallKind.deleteOne (gs "p") ∧
    ((DeleteBlob {} flakyOnce (gs "p")).2.get ⟨0, by decide⟩).timeoutMs
        = some ({} : RetryConfig).attemptTimeoutMs ∧
    ((DeleteBlob {} flakyOnce (gs "p")).2.get ⟨0, by decide⟩).viaBreaker = true ∧
    (DeleteBlob {} flakyOnce (gs "p")).2.map (fun a => a.sleptBeforeMs)
      = (List.range (DeleteBlob {} flakyOnce (gs "p")).2.length).map expSleep ∧
    ((DeleteBlobsWithPfx {} flakyOnce (fun _ _ => true) (gs "hls/u/x") 0
        [[gs "b"]]).2.get ⟨0, by decide⟩).timeoutMs = none ∧
    ((DeleteBlobsWithPfx {} flakyOnce (fun _ _ => true) (gs "hls/u/x") 0
        [[gs "b"]]).2.get ⟨0, by decide⟩).sleptBeforeMs = 0 ∧
    ((DeleteBlobsWithPfx {} flakyOnce (fun _ _ => true) (gs "hls/u/x") 0
        [[gs "b"]]).2.get ⟨0, by decide⟩).viaBreaker = true ∧
    DeleteBlobsWithPfx {} flakyOnce (fun _ _ => true) (gs "hls/u/x") 0 [[gs "b"]]
      = (false, [(listPageFetch flakyOnce (gs "hls/u/x") 0).2]) :=
  claimC5 {} flakyOnce flakyOnce (fun _ _ => true) (gs "p") (gs "hls/u/x")
    [[gs "b"]] 0 _ (by decide) _ (by decide) (gs "hls/u/x") 0 (by decide)
    [gs "b"] [] (by decide)

end Catalog
